import Mathlib

/-!
# `index.js` of the Nillion NFT API: embedding and checked properties

The file is one Express application with three handlers:

* `POST /add-nft-data`  (lines 42-99):  validate, encode with `$allot`, write, collect ids;
* `GET /get-latest-nft` (lines 103-166): filter by `fitbitid`, sort by `dateofupdate`, resolve;
* `GET /get-leaderboard` (lines 170-209): fold into `leaderboardMap`, `Object.entries`, sort.

Conventions of the embedding.

* A request body is JSON, so its fields are arbitrary JSON values (`JSVal`); an absent
  field reads as `undefined`.
* A record returned by `readFromNodes` has a scalar `fitbitid`, and each of `dateofupdate`
  and `level` is a scalar (absent reads as `undefined`) or a `{ $share: inner }` container
  with a scalar inside (`RawField`).  The write path stores both fields as strings, so these
  shapes cover what the handlers can read back.
* The storage client is an external library.  A `Backend` scripts what its awaited calls
  resolve to or reject with, and `addNftData` also returns the calls it made.
* A thrown exception is an error value that carries the message; every handler catches it
  and answers 500 with that message.  The message texts are those of V8.
* The Number that `parseInt` returns is NaN, an infinity, or the double nearest to the
  integer that the digits write (`ParsedInt`, `roundToDouble`): nothing is rounded below
  `2 ^ 53`, and `"9007199254740993"` reads as `9007199254740992`.
* `Array.prototype.sort` is stable, and for a consistent comparator it returns the one
  stable sorted arrangement; it is embedded as a stable insertion sort.  A comparator that
  returns NaN for some pairs only is not consistent and the order is then left to the
  engine; the concrete inputs below avoid that case or hold for every arrangement.
-/

namespace Nillion

/-! ## Values -/

/-- A JavaScript primitive.  A Number is identified by its canonical decimal rendering
(`Number.prototype.toString`): `"0"` for both zeros, `"NaN"`, `"Infinity"`, `"1.5"`,
`"1e+21"`, and so on.  The handlers only test a Number for truthiness and stringify it. -/
inductive Prim where
  | undefined
  | null
  | bool (b : Bool)
  | num (repr : String)
  | str (s : String)
  deriving DecidableEq, Repr

/-- A JSON value as `bodyParser.json()` hands it to a handler. -/
inductive JSVal where
  | prim (p : Prim)
  | obj (props : List (String × JSVal))
  | arr (items : List JSVal)

/-- The result of `!!p`: `undefined`, `null`, `false`, `±0`, `NaN` and `""` are falsy. -/
def Prim.truthy : Prim → Bool
  | .undefined => false
  | .null => false
  | .bool b => b
  | .num repr => !(repr == "0" || repr == "NaN")
  | .str s => !(s == "")

/-- The result of `!!v`: every object and every array is truthy. -/
def JSVal.truthy : JSVal → Bool
  | .prim p => p.truthy
  | .obj _ => true
  | .arr _ => true

/-- The abstract operation `ToString` on a primitive. -/
def Prim.toStr : Prim → String
  | .undefined => "undefined"
  | .null => "null"
  | .bool b => if b then "true" else "false"
  | .num repr => repr
  | .str s => s

mutual
/-- The abstract operation `ToString` on a JSON value.  A plain object stringifies through
`Object.prototype.toString` unless it has an own property `toString`, which in a JSON value
is never callable: then neither `toString` nor `valueOf` yields a primitive and a
`TypeError` is thrown.  An array stringifies through `Array.prototype.join`. -/
def JSVal.toStr : JSVal → Option String
  | .prim p => some p.toStr
  | .obj props =>
    if props.any (fun kv => kv.1 == "toString") then none else some "[object Object]"
  | .arr items => joinItems items
termination_by structural v => v
/-- The body of `Array.prototype.join` with separator `","`: `undefined` and `null` elements
contribute the empty string, every other element its `ToString`. -/
def joinItems : List JSVal → Option String
  | [] => some ""
  | x :: xs =>
    let first : Option String :=
      match x with
      | .prim .undefined => some ""
      | .prim .null => some ""
      | v => JSVal.toStr v
    match first, joinItems xs with
    | some a, some b => some (if xs.isEmpty then a else a ++ "," ++ b)
    | _, _ => none
termination_by structural l => l
end

/-- The method call `v.toString()` written in the source as `name.toString()`; an error
carries the message of the `TypeError` (the texts are those of V8, the engine of Node).
On `undefined` and `null` the property access throws; on the other primitives the wrapper's
method agrees with `ToString`; on an object the own property `toString`, when present, is
called although it is not a function; on an array `join` runs `ToString` on the elements. -/
def JSVal.callToString (name : String) : JSVal → Except String String
  | .prim .undefined => .error "Cannot read properties of undefined (reading \x27toString\x27)"
  | .prim .null => .error "Cannot read properties of null (reading \x27toString\x27)"
  | .prim p => .ok p.toStr
  | .obj props =>
    if props.any (fun kv => kv.1 == "toString") then
      .error (name ++ ".toString is not a function")
    else .ok "[object Object]"
  | .arr items =>
    match joinItems items with
    | some s => .ok s
    | none => .error "Cannot convert object to primitive value"

/-! ## `parseInt(string, 10)` -/

/-- A Number as `parseInt` returns it and as the subtraction of two such Numbers yields it:
NaN, an integer that is a double, or an infinity.  The two zeros are one value: no
operation of the handlers tells them apart. -/
inductive ParsedInt where
  | nan
  | int (i : Int)
  | inf (negative : Bool)
  deriving DecidableEq, Repr

/-- The characters `StrWhiteSpaceChar` of ECMAScript: white space (TAB, VT, FF, ZWNBSP and
the Unicode category Zs) and line terminators (LF, CR, LS, PS). -/
def isStrWhiteSpaceChar (c : Char) : Bool :=
  let n := c.toNat
  n == 0x9 || n == 0xA || n == 0xB || n == 0xC || n == 0xD || n == 0x20 || n == 0xA0 ||
  n == 0x1680 || (0x2000 ≤ n && n ≤ 0x200A) || n == 0x2028 || n == 0x2029 ||
  n == 0x202F || n == 0x205F || n == 0x3000 || n == 0xFEFF

/-- A decimal digit `0`..`9`. -/
def isDecimalDigit (c : Char) : Bool := 48 ≤ c.toNat && c.toNat ≤ 57

/-- The value of a run of decimal digits. -/
def digitsValue (ds : List Char) : Nat :=
  ds.foldl (fun n c => 10 * n + (c.toNat - 48)) 0

/-- The power of two `2 ^ k`. -/
def pow2 : Nat → Nat
  | 0 => 1
  | k + 1 => 2 * pow2 k

/-- The number of low bits of `n` that do not fit the 53-bit significand of a double:
how often `n` is halved before it is below `2 ^ 53`. -/
def excessBits : Nat → Nat → Nat
  | 0, _ => 0
  | fuel + 1, n => if n < 2 ^ 53 then 0 else excessBits fuel (n / 2) + 1

/-- The bound `2 ^ 1024`: a magnitude that rounds to it or above is an infinity. -/
def doubleLimit : Nat := 2 ^ 256 * 2 ^ 256 * 2 ^ 256 * 2 ^ 256

/-- The double nearest to the natural number `n`, ties to the even significand; `none`
when the result is infinite. -/
def roundToDouble (n : Nat) : Option Nat :=
  let unit := pow2 (excessBits n n)
  let q := n / unit
  let r := n % unit
  let q2 := if unit < 2 * r || (2 * r == unit && q % 2 == 1) then q + 1 else q
  if q2 * unit < doubleLimit then some (q2 * unit) else none

/-- The Number for a sign and a magnitude. -/
def toNumber (negative : Bool) (magnitude : Nat) : ParsedInt :=
  match roundToDouble magnitude with
  | some v => .int (if negative then -(v : Int) else (v : Int))
  | none => .inf negative

/-- The sign step of `parseInt`: a leading `-` makes the result negative, and a leading `+`
or `-` is removed. -/
def splitSign : List Char → Bool × List Char
  | '-' :: rest => (true, rest)
  | '+' :: rest => (false, rest)
  | cs => (false, cs)

/-- The function `parseInt(inputString, 10)` on a string: skip leading white space, read the
sign, take the longest prefix of decimal digits; NaN when that prefix is empty, else the
Number for the integer these digits write. -/
def parseInt (inputString : String) : ParsedInt :=
  let signed := splitSign (inputString.data.dropWhile isStrWhiteSpaceChar)
  let digits := signed.2.takeWhile isDecimalDigit
  if digits.isEmpty then .nan else toNumber signed.1 (digitsValue digits)

/-- The result of `!!n` for a Number: `0` and NaN are falsy. -/
def ParsedInt.truthy : ParsedInt → Bool
  | .nan => false
  | .int i => !(i == 0)
  | .inf _ => true

/-- The comparison `a > b` on Numbers: false as soon as one side is NaN. -/
def ParsedInt.gt : ParsedInt → ParsedInt → Bool
  | .nan, _ => false
  | _, .nan => false
  | .int a, .int b => decide (b < a)
  | .int _, .inf negative => negative
  | .inf negative, .int _ => !negative
  | .inf a, .inf b => !a && b

/-- The comparison `a >= b` on Numbers: false as soon as one side is NaN. -/
def ParsedInt.ge : ParsedInt → ParsedInt → Bool
  | .nan, _ => false
  | _, .nan => false
  | .int a, .int b => decide (b ≤ a)
  | .int _, .inf negative => negative
  | .inf negative, .int _ => !negative
  | .inf a, .inf b => !a || b

/-- The subtraction `a - b` on Numbers: NaN as soon as one side is NaN and for two
infinities of one sign, else the double nearest to the difference. -/
def ParsedInt.sub : ParsedInt → ParsedInt → ParsedInt
  | .nan, _ => .nan
  | _, .nan => .nan
  | .int a, .int b => toNumber (decide (a - b < 0)) (a - b).natAbs
  | .int _, .inf negative => .inf (!negative)
  | .inf negative, .int _ => .inf negative
  | .inf a, .inf b => if a = b then .nan else .inf a

/-! ## `Array.prototype.sort(comparefn)` -/

/-- The step `SortCompare` applied to what `comparefn` returned, up to a positive factor:
NaN counts as `+0`, and the sort only looks at the sign. -/
def sortCompare : ParsedInt → Int
  | .nan => 0
  | .int i => i
  | .inf negative => if negative then -1 else 1

/-- The method `Array.prototype.sort(comparefn)`: a stable sort that puts `a` before `b`
when `comparefn(a, b) < 0` and keeps the input order when it is `0`. -/
def arraySort {α : Type} (comparefn : α → α → ParsedInt) (l : List α) : List α :=
  l.insertionSort (fun a b => sortCompare (comparefn a b) ≤ 0)

/-! ## Records read from the nodes -/

/-- A field `dateofupdate` or `level` of a record returned by `readFromNodes`: a scalar
(an absent field reads as `undefined`) or a reconstructed-share container
`{ $share: inner }`. -/
inductive RawField where
  | scalar (p : Prim)
  | share (inner : Prim)
  deriving DecidableEq, Repr

/-- A record returned by `readFromNodes`. -/
structure RawRecord where
  fitbitid : Prim
  dateofupdate : RawField
  level : RawField
  deriving DecidableEq, Repr

/-- The result of `!!f`: a container is an object, hence truthy. -/
def RawField.truthy : RawField → Bool
  | .scalar p => p.truthy
  | .share _ => true

/-- The expression `f?.$share`: `undefined` on `undefined` and `null` (short circuit) and
on every other scalar (no such property), the inner value on a container. -/
def RawField.shareOpt : RawField → RawField
  | .scalar _ => .scalar .undefined
  | .share inner => .scalar inner

/-- The expression `a || b`. -/
def RawField.or (a b : RawField) : RawField := if a.truthy then a else b

/-- The abstract operation `ToString` on a field: a container is a plain object. -/
def RawField.toStr : RawField → String
  | .scalar p => p.toStr
  | .share _ => "[object Object]"

/-- The expression `f?.$share || f || fallback`, used with `"0"` and with `"Missing"`. -/
def RawField.orElse (f : RawField) (fallback : String) : RawField :=
  (f.shareOpt.or f).or (.scalar (.str fallback))

/-! ## `GET /get-latest-nft` -/

/-- The answers of `/get-latest-nft`. -/
inductive LatestResponse where
  /-- Status 400, "Missing required query parameter: fitbitid". -/
  | badRequest
  /-- Status 404, "No NFT records found." -/
  | noRecords
  /-- Status 404, "No NFT records found for fitbitid: ...". -/
  | noRecordsFor (fitbitid : String)
  /-- Status 200 with the three response fields. -/
  | ok (fitbitid : Prim) (dateofupdate : RawField) (level : RawField)
  /-- Status 500 with the message of the caught error. -/
  | serverError (message : String)
  deriving DecidableEq, Repr

/-- The HTTP status of an answer of `/get-latest-nft`. -/
def LatestResponse.status : LatestResponse → Nat
  | .badRequest => 400
  | .noRecords => 404
  | .noRecordsFor _ => 404
  | .ok _ _ _ => 200
  | .serverError _ => 500

/-- The operand `parseInt(r.dateofupdate?.$share || r.dateofupdate || "0", 10)` of the
comparator at lines 143-144. -/
def dateKey (record : RawRecord) : ParsedInt :=
  parseInt (record.dateofupdate.orElse "0").toStr

/-- The comparator of lines 142-144: `parseInt(b...) - parseInt(a...)`. -/
def compareByDate (a b : RawRecord) : ParsedInt := (dateKey b).sub (dateKey a)

/-- The filter of lines 130-132: `record.fitbitid === fitbitid` for a string `fitbitid`. -/
def userNFTRecords (fitbitid : String) (allNFTRecords : List RawRecord) : List RawRecord :=
  allNFTRecords.filter (fun record => decide (record.fitbitid = .str fitbitid))

/-- The record `userNFTRecords[0]` after the sort of lines 141-145. -/
def latestNFTRecord (fitbitid : String) (allNFTRecords : List RawRecord) : Option RawRecord :=
  (arraySort compareByDate (userNFTRecords fitbitid allNFTRecords)).head?

/-- The value `f?.$share || f || "Missing"` of lines 153-158. -/
def resolveField (f : RawField) : RawField := f.orElse "Missing"

/-- Lines 125-161: the answer computed from the records that were read. -/
def latestFromRecords (fitbitid : String) (allNFTRecords : List RawRecord) : LatestResponse :=
  if allNFTRecords.length = 0 then .noRecords
  else if (userNFTRecords fitbitid allNFTRecords).length = 0 then .noRecordsFor fitbitid
  else
    match latestNFTRecord fitbitid allNFTRecords with
    | some latest =>
      .ok latest.fitbitid (resolveField latest.dateofupdate) (resolveField latest.level)
    | none => .serverError "Cannot read properties of undefined (reading \x27fitbitid\x27)"

/-! ## `GET /get-leaderboard` -/

/-- The string-keyed properties of `Object.prototype`, which the literal `{}` of line 188
inherits.  Each of them is a function, except `__proto__`, whose getter returns
`Object.prototype`. -/
def objectPrototypeKeys : List String :=
  ["constructor", "__defineGetter__", "__defineSetter__", "hasOwnProperty",
   "__lookupGetter__", "__lookupSetter__", "isPrototypeOf", "propertyIsEnumerable",
   "toString", "valueOf", "__proto__", "toLocaleString"]

/-- The own properties of `leaderboardMap`, in creation order. -/
abbrev PropMap := List (String × ParsedInt)

/-- What the read `leaderboardMap[key]` returns. -/
inductive Slot where
  /-- No own and no inherited property: `undefined`. -/
  | absent
  /-- A member of `Object.prototype`: a function or an object. -/
  | inherited
  /-- An own property, holding a level. -/
  | own (level : ParsedInt)
  deriving DecidableEq, Repr

/-- The read `leaderboardMap[key]`. -/
def PropMap.get (m : PropMap) (key : String) : Slot :=
  match m.lookup key with
  | some level => .own level
  | none => if key ∈ objectPrototypeKeys then .inherited else .absent

/-- The result of `!!slot`: functions and objects are truthy, `undefined` is falsy. -/
def Slot.truthy : Slot → Bool
  | .absent => false
  | .inherited => true
  | .own level => level.truthy

/-- The comparison `level > slot`.  An inherited function or object converts to a string
that is not numeric, hence to NaN, and `undefined` converts to NaN. -/
def ParsedInt.gtSlot (level : ParsedInt) : Slot → Bool
  | .own current => level.gt current
  | .inherited => false
  | .absent => false

/-- Replace the value of an own property in place, or create the property last. -/
def PropMap.put : PropMap → String → ParsedInt → PropMap
  | [], key, level => [(key, level)]
  | (k, v) :: rest, key, level =>
    if k = key then (k, level) :: rest else (k, v) :: PropMap.put rest key level

/-- The write `leaderboardMap[key] = level`.  Writing `__proto__` runs the inherited setter,
which ignores a Number. -/
def PropMap.set (m : PropMap) (key : String) (level : ParsedInt) : PropMap :=
  if key = "__proto__" then m else m.put key level

/-- The level `parseInt(record.level?.$share || record.level || "0", 10)` of line 192. -/
def levelOf (record : RawRecord) : ParsedInt :=
  parseInt (record.level.orElse "0").toStr

/-- The property key that `leaderboardMap[fitbitid]` uses for a record. -/
def keyOf (record : RawRecord) : String := record.fitbitid.toStr

/-- The callback of `forEach`, lines 190-197. -/
def leaderboardStep (leaderboardMap : PropMap) (record : RawRecord) : PropMap :=
  let fitbitid := keyOf record
  let level := levelOf record
  if !(leaderboardMap.get fitbitid).truthy || level.gtSlot (leaderboardMap.get fitbitid) then
    leaderboardMap.set fitbitid level
  else leaderboardMap

/-- The index of an array-index key: the canonical decimal string of a number up to
`2 ^ 32 - 2`. -/
def arrayIndex (key : String) : Option Nat :=
  let cs := key.data
  if cs.isEmpty || !cs.all isDecimalDigit then none
  else if cs.head? = some '0' && cs.length ≠ 1 then none
  else if digitsValue cs ≤ 4294967294 then some (digitsValue cs) else none

/-- The function `Object.entries`: array-index keys in ascending numeric order, then the
other keys in creation order. -/
def objectEntries (m : PropMap) : List (String × ParsedInt) :=
  (m.filter (fun kv => (arrayIndex kv.1).isSome)).insertionSort
      (fun a b => (arrayIndex a.1).getD 0 ≤ (arrayIndex b.1).getD 0)
    ++ m.filter (fun kv => !(arrayIndex kv.1).isSome)

/-- An element `{ fitbitid, level }` of the leaderboard. -/
structure Entry where
  fitbitid : String
  level : ParsedInt
  deriving DecidableEq, Repr

/-- The comparator of line 202: `b.level - a.level`. -/
def compareByLevel (a b : Entry) : ParsedInt := b.level.sub a.level

/-- Lines 188-202: the leaderboard computed from the records that were read. -/
def computeLeaderboard (allNFTRecords : List RawRecord) : List Entry :=
  let leaderboardMap := allNFTRecords.foldl leaderboardStep []
  arraySort compareByLevel ((objectEntries leaderboardMap).map (fun kv => ⟨kv.1, kv.2⟩))

/-- The answers of `/get-leaderboard`. -/
inductive LeaderboardResponse where
  /-- Status 404, "No NFT records found." -/
  | noRecords
  /-- Status 200 with the leaderboard. -/
  | ok (leaderboard : List Entry)
  /-- Status 500 with the message of the caught error. -/
  | serverError (message : String)
  deriving DecidableEq, Repr

/-- Lines 183-204: the answer computed from the records that were read. -/
def leaderboardFromRecords (allNFTRecords : List RawRecord) : LeaderboardResponse :=
  if allNFTRecords.length = 0 then .noRecords else .ok (computeLeaderboard allNFTRecords)

/-! ## `POST /add-nft-data` -/

/-- The object `{ $allot: value }` that marks a field for secret sharing. -/
structure Allot where
  allot : String

/-- The element of `data` built at lines 55-61. -/
structure WireRecord where
  fitbitid : JSVal
  dateofupdate : Allot
  level : Allot

/-- The object `item.result.data` of a write acknowledgment; `created` may be missing. -/
structure AckData where
  created : Option (List String)

/-- The object `item.result` of a write acknowledgment; `data` may be missing. -/
structure AckResult where
  data : Option AckData

/-- One element of the array that `writeToNodes` resolves to; `result` may be missing. -/
structure Ack where
  result : Option AckResult

/-- The callback `(item) => item.result?.data?.created || []` of line 78. -/
def createdOf (item : Ack) : List String :=
  match item.result with
  | none => []
  | some result =>
    match result.data with
    | none => []
    | some data => data.created.getD []

/-- The method `Set.prototype.add` on the insertion-ordered elements of a `Set`. -/
def setAdd (elements : List String) (id : String) : List String :=
  if id ∈ elements then elements else elements ++ [id]

/-- The expression `[...new Set(iterable)]`: the distinct elements in order of first
occurrence. -/
def spreadNewSet (iterable : List String) : List String := iterable.foldl setAdd []

/-- The array `newIds` of lines 76-80. -/
def newIds (dataWritten : List Ack) : List String :=
  spreadNewSet (dataWritten.flatMap createdOf)

/-- The scripted behaviour of the `SecretVaultWrapper` instance of one request: what each
awaited call resolves to, or the message of the error it rejects with.  `readFromNodes` may
resolve to `null` (`none`). -/
structure Backend where
  init : Except String Unit
  writeToNodes : List WireRecord → Except String (List Ack)
  readFromNodes : Except String (Option (List RawRecord))

/-- A call made on the `SecretVaultWrapper` instance. -/
inductive BackendCall where
  | init
  | writeToNodes (data : List WireRecord)
  | readFromNodes

/-- The fields that line 44 destructures from `req.body`. -/
structure AddBody where
  fitbitid : JSVal
  dateofupdate : JSVal
  level : JSVal

/-- The answers of `/add-nft-data`. -/
inductive AddResponse where
  /-- Status 400, "Missing required field(s). ...". -/
  | badRequest
  /-- Status 200 with `createdRecordIds` and `allData`. -/
  | ok (createdRecordIds : List String) (allData : List RawRecord)
  /-- Status 500 with the message of the caught error. -/
  | serverError (message : String)
  deriving DecidableEq, Repr

/-- The HTTP status of an answer of `/add-nft-data`. -/
def AddResponse.status : AddResponse → Nat
  | .badRequest => 400
  | .ok _ _ => 200
  | .serverError _ => 500

/-- The object literal of lines 56-60, evaluated in source order; an error is the message
of the `TypeError` that one of the two `toString()` calls throws. -/
def encode (body : AddBody) : Except String WireRecord :=
  match JSVal.callToString "dateofupdate" body.dateofupdate with
  | .error message => .error message
  | .ok dateofupdate =>
    match JSVal.callToString "level" body.level with
    | .error message => .error message
    | .ok level => .ok ⟨body.fitbitid, ⟨dateofupdate⟩, ⟨level⟩⟩

/-- The handler of `/add-nft-data`, lines 42-99: its answer and the calls it made on the
storage client, in order. -/
def addNftData (body : AddBody) (backend : Backend) : AddResponse × List BackendCall :=
  if !body.fitbitid.truthy || !body.dateofupdate.truthy || !body.level.truthy then
    (.badRequest, [])
  else
    match encode body with
    | .error message => (.serverError message, [])
    | .ok record =>
      let data := [record]
      match backend.init with
      | .error message => (.serverError message, [.init])
      | .ok _ =>
        match backend.writeToNodes data with
        | .error message => (.serverError message, [.init, .writeToNodes data])
        | .ok dataWritten =>
          match backend.readFromNodes with
          | .error message =>
            (.serverError message, [.init, .writeToNodes data, .readFromNodes])
          | .ok none =>
            (.serverError "Cannot read properties of null (reading \x27slice\x27)",
              [.init, .writeToNodes data, .readFromNodes])
          | .ok (some decryptedCollectionData) =>
            (.ok (newIds dataWritten) (decryptedCollectionData.take data.length),
              [.init, .writeToNodes data, .readFromNodes])

/-! ## The two read handlers with their storage calls -/

/-- The handler of `/get-latest-nft`, lines 103-166, for a query whose `fitbitid` is absent
(`none`) or a string. -/
def getLatestNft (fitbitid : Option String) (backend : Backend) : LatestResponse :=
  match fitbitid with
  | none => .badRequest
  | some fitbitid =>
    if fitbitid = "" then .badRequest
    else
      match backend.init with
      | .error message => .serverError message
      | .ok _ =>
        match backend.readFromNodes with
        | .error message => .serverError message
        | .ok none => .noRecords
        | .ok (some allNFTRecords) => latestFromRecords fitbitid allNFTRecords

/-- The handler of `/get-leaderboard`, lines 170-209. -/
def getLeaderboard (backend : Backend) : LeaderboardResponse :=
  match backend.init with
  | .error message => .serverError message
  | .ok _ =>
    match backend.readFromNodes with
    | .error message => .serverError message
    | .ok none => .noRecords
    | .ok (some allNFTRecords) => leaderboardFromRecords allNFTRecords

/-- Modelled from the spec: the storage client `nillion-sv-wrappers`, whose code is not part
of the repository.  A record written as `w` is read back with its `fitbitid` unchanged and
with each allotted field either as the plain stored string or, when the flag of the field
is set, as a reconstructed-share container around it.  The read model has scalar
`fitbitid`s only, so the result is `none` for another `fitbitid`. -/
def readBack (dateAsShare levelAsShare : Bool) (w : WireRecord) : Option RawRecord :=
  match w.fitbitid with
  | .prim fitbitid =>
    some ⟨fitbitid,
      if dateAsShare then .share (.str w.dateofupdate.allot)
      else .scalar (.str w.dateofupdate.allot),
      if levelAsShare then .share (.str w.level.allot) else .scalar (.str w.level.allot)⟩
  | _ => none

/-! ## Inputs used by the checked examples -/

/-- A stored record whose three fields are plain strings. -/
def plainRecord (fitbitid dateofupdate level : String) : RawRecord :=
  ⟨.str fitbitid, .scalar (.str dateofupdate), .scalar (.str level)⟩

/-- Two users, the first with a level that is not numeric. -/
def mixedLevelRecords : List RawRecord :=
  [plainRecord "a" "1" "abc", plainRecord "b" "2" "5"]

/-- Three users with numeric levels. -/
def numericLevelRecords : List RawRecord :=
  [plainRecord "a" "1" "2", plainRecord "b" "2" "7", plainRecord "a" "3" "4",
   plainRecord "c" "4" "7"]

/-- The example of the specification: two records of `u1` and one of `u2`. -/
def specExampleRecords : List RawRecord :=
  [plainRecord "u1" "100" "2", plainRecord "u1" "200" "3", plainRecord "u2" "300" "9"]

/-- Two records of `u1`, the first with a timestamp that is not numeric. -/
def mixedDateRecords : List RawRecord :=
  [plainRecord "u1" "abc" "2", plainRecord "u1" "5" "3"]

/-- Follows the spec's words, not the source: a string "interpreted as a base-10 integer",
exactly, "with parse failures treated as `0`". -/
def parseLenientInt (inputString : String) : Int :=
  let signed := splitSign (inputString.data.dropWhile isStrWhiteSpaceChar)
  let digits := signed.2.takeWhile isDecimalDigit
  if digits.isEmpty then 0
  else if signed.1 then -(digitsValue digits : Int) else (digitsValue digits : Int)

/-- Follows the spec's words, not the source: the timestamp of a record "interpreted as an
integer (parse failures treated as `0`)". -/
def lenientDate (record : RawRecord) : Int :=
  parseLenientInt (record.dateofupdate.orElse "0").toStr

/-- Two records of `u1` whose timestamps differ by one above `2 ^ 53`. -/
def closeDateRecords : List RawRecord :=
  [plainRecord "u1" "9007199254740992" "1", plainRecord "u1" "9007199254740993" "2"]

/-- A storage client whose calls all succeed and whose reads return `records`. -/
def servingBackend (records : List RawRecord) : Backend :=
  ⟨.ok (), fun _ => .ok [], .ok (some records)⟩

/-- One record of `u1` whose timestamp is the empty string and whose level is a container
around the empty string. -/
def emptyFieldRecords : List RawRecord :=
  [⟨.str "u1", .scalar (.str ""), .share (.str "")⟩]

/-- A body whose three fields are truthy and whose `dateofupdate` is the JSON object
`{"toString": 1}`. -/
def shadowedToStringBody : AddBody :=
  ⟨.prim (.str "a"), .obj [("toString", .prim (.num "1"))], .prim (.str "1")⟩

/-- A body with three non-empty strings. -/
def plainBody : AddBody :=
  ⟨.prim (.str "u1"), .prim (.str "200"), .prim (.str "3")⟩

/-- The acknowledgments of five nodes: two complete ones with overlapping ids, and between
them one without `result`, one without `data` and one without `created`. -/
def partialAcks : List Ack :=
  [⟨some ⟨some ⟨some ["id-1", "id-2"]⟩⟩⟩, ⟨none⟩, ⟨some ⟨none⟩⟩, ⟨some ⟨some ⟨none⟩⟩⟩,
   ⟨some ⟨some ⟨some ["id-2", "id-1", "id-3"]⟩⟩⟩]

/-- A storage client that answers a write with `partialAcks` and then returns one record. -/
def partialAckBackend : Backend :=
  ⟨.ok (), fun _ => .ok partialAcks, .ok (some [plainRecord "u1" "200" "3"])⟩

/-- What one record does to the own property of its key, when the key is not a member of
`Object.prototype`: the first level creates the property, a later level replaces a falsy
or smaller one. -/
def updateLevel (current : Option ParsedInt) (level : ParsedInt) : Option ParsedInt :=
  match current with
  | none => some level
  | some cur => if !cur.truthy || level.gt cur then some level else some cur

/-- The levels of the records of one property key, in input order. -/
def levelsOf (key : String) (allNFTRecords : List RawRecord) : List ParsedInt :=
  (allNFTRecords.filter (fun record => decide (keyOf record = key))).map levelOf

/-- One user whose only record has the level `"abc"`. -/
def nonNumericLevelRecords : List RawRecord := [plainRecord "a" "1" "abc"]

/-- One user with the level `"0"` and then the level `"-5"`. -/
def zeroThenNegativeRecords : List RawRecord :=
  [plainRecord "a" "1" "0", plainRecord "a" "2" "-5"]

/-- One user whose `fitbitid` is the string `"constructor"`. -/
def inheritedKeyRecords : List RawRecord := [plainRecord "constructor" "1" "3"]

/-- The place of a Number among the infinities: `-1` for `-Infinity`, `1` for `Infinity`,
`0` otherwise. -/
def ParsedInt.rank : ParsedInt → Int
  | .inf true => -1
  | .inf false => 1
  | _ => 0

/-- The integer of a finite Number, `0` otherwise. -/
def ParsedInt.value : ParsedInt → Int
  | .int i => i
  | _ => 0

/-- The order `a >= b` of the Numbers other than NaN, made total by reading NaN as `0`. -/
def ParsedInt.above (a b : ParsedInt) : Prop :=
  b.rank < a.rank ∨ (b.rank = a.rank ∧ b.value ≤ a.value)

instance : DecidableRel ParsedInt.above := fun a b => by
  unfold ParsedInt.above
  exact inferInstance

/-! # Theorems -/

/-! ## Rounding to a double -/

/-- A power of two is positive. -/
theorem pow2_pos (k : Nat) : 0 < pow2 k := by
  induction k with
  | zero => decide
  | succ k ih =>
    unfold pow2
    omega

/-- The unit of the last place of a positive number is at most the number. -/
theorem pow2_excessBits_le (fuel n : Nat) (hn : 0 < n) : pow2 (excessBits fuel n) ≤ n := by
  induction fuel generalizing n with
  | zero => exact hn
  | succ fuel ih =>
    unfold excessBits
    split
    · exact hn
    · rename_i hbig
      have h53 : (2 : Nat) ^ 53 = 9007199254740992 := by norm_num
      have hhalf : 0 < n / 2 := by omega
      have := ih (n / 2) hhalf
      unfold pow2
      omega

/-- Below `2 ^ 53` nothing is rounded. -/
theorem roundToDouble_of_lt (n : Nat) (h : n < 2 ^ 53) : roundToDouble n = some n := by
  have hex : excessBits n n = 0 := by
    cases n with
    | zero => rfl
    | succ k =>
      show (if k + 1 < 2 ^ 53 then 0 else excessBits k ((k + 1) / 2) + 1) = 0
      rw [if_pos h]
  have hlim : n < doubleLimit := by
    have : (2 : Nat) ^ 53 < doubleLimit := by decide
    omega
  simp [roundToDouble, hex, pow2, hlim, Nat.mod_one]

/-- Rounding keeps a positive number positive. -/
theorem roundToDouble_pos (n v : Nat) (hn : 0 < n) (h : roundToDouble n = some v) : 0 < v := by
  have hunit := pow2_pos (excessBits n n)
  have hq : 0 < n / pow2 (excessBits n n) :=
    Nat.div_pos (pow2_excessBits_le n n hn) hunit
  have key : ∀ q2 : Nat, 0 < q2 →
      (if q2 * pow2 (excessBits n n) < doubleLimit then some (q2 * pow2 (excessBits n n))
        else none) = some v → 0 < v := by
    intro q2 hq2 hif
    split at hif
    · rw [← Option.some.inj hif]
      exact Nat.mul_pos hq2 hunit
    · cases hif
  unfold roundToDouble at h
  simp only at h
  refine key _ ?_ h
  split <;> omega

/-- The sign of the Number for a sign and a magnitude. -/
theorem sortCompare_toNumber_le (negative : Bool) (m : Nat) :
    sortCompare (toNumber negative m) ≤ 0 ↔ (m = 0 ∨ negative = true) := by
  by_cases hm : m = 0
  · subst hm
    have h0 : roundToDouble 0 = some 0 := by decide
    cases negative <;> simp [toNumber, h0, sortCompare]
  · have hpos : 0 < m := Nat.pos_of_ne_zero hm
    unfold toNumber
    cases h : roundToDouble m with
    | none => cases negative <;> simp [sortCompare, hm]
    | some v =>
      have hv := roundToDouble_pos m v hpos h
      cases negative <;> simp [sortCompare, hm]
      all_goals omega

/-! ## Sorting -/

/-- The order `above` is total. -/
theorem above_total (a b : ParsedInt) : a.above b ∨ b.above a := by
  unfold ParsedInt.above
  omega

/-- The order `above` is transitive. -/
theorem above_trans (a b c : ParsedInt) (hab : a.above b) (hbc : b.above c) : a.above c := by
  unfold ParsedInt.above at *
  omega

/-- On a list where the comparator agrees with the order `above` of a key, `arraySort` is
sorted by descending key. -/
theorem arraySort_pairwise_of_key {α : Type} (comparefn : α → α → ParsedInt)
    (key : α → ParsedInt) (l : List α)
    (h : ∀ a ∈ l, ∀ b ∈ l, sortCompare (comparefn a b) ≤ 0 ↔ (key a).above (key b)) :
    (arraySort comparefn l).Pairwise (fun a b => (key a).above (key b)) := by
  have heq : arraySort comparefn l = l.insertionSort (fun a b => (key a).above (key b)) := by
    have := List.map_insertionSort (fun a b => sortCompare (comparefn a b) ≤ 0)
      (fun a b => (key a).above (key b)) id l (by simpa using h)
    simpa [arraySort] using this
  rw [heq]
  haveI : IsTotal α (fun a b => (key a).above (key b)) :=
    ⟨fun a b => above_total (key a) (key b)⟩
  haveI : IsTrans α (fun a b => (key a).above (key b)) :=
    ⟨fun a b c hab hbc => above_trans (key a) (key b) (key c) hab hbc⟩
  exact List.sorted_insertionSort (fun a b => (key a).above (key b)) l

/-- Sorting keeps the elements. -/
theorem mem_arraySort {α : Type} (comparefn : α → α → ParsedInt) (l : List α) (x : α) :
    x ∈ arraySort comparefn l ↔ x ∈ l := by
  unfold arraySort
  exact List.mem_insertionSort _

/-- Sorting is a permutation. -/
theorem arraySort_perm {α : Type} (comparefn : α → α → ParsedInt) (l : List α) :
    (arraySort comparefn l).Perm l := by
  unfold arraySort
  exact List.perm_insertionSort _ l

/-- Away from NaN the comparator `b - a` puts `a` first exactly when `a >= b`. -/
theorem sortCompare_sub_le_iff (a b : ParsedInt) (ha : a ≠ .nan) (hb : b ≠ .nan) :
    sortCompare (b.sub a) ≤ 0 ↔ a.above b := by
  cases a with
  | nan => exact absurd rfl ha
  | int x =>
    cases b with
    | nan => exact absurd rfl hb
    | int y =>
      simp only [ParsedInt.sub, sortCompare_toNumber_le, ParsedInt.above, ParsedInt.rank,
        ParsedInt.value, decide_eq_true_eq, Int.natAbs_eq_zero, lt_self_iff_false,
        true_and, false_or]
      omega
    | inf nb => cases nb <;> simp [ParsedInt.sub, sortCompare, ParsedInt.above, ParsedInt.rank]
  | inf na =>
    cases b with
    | nan => exact absurd rfl hb
    | int y => cases na <;> simp [ParsedInt.sub, sortCompare, ParsedInt.above, ParsedInt.rank]
    | inf nb =>
      cases na <;> cases nb <;>
        simp [ParsedInt.sub, sortCompare, ParsedInt.above, ParsedInt.rank, ParsedInt.value]

/-- Away from NaN the order `above` is the comparison `>=`. -/
theorem ge_of_above (a b : ParsedInt) (ha : a ≠ .nan) (hb : b ≠ .nan)
    (h : a.above b) : a.ge b = true := by
  cases a with
  | nan => exact absurd rfl ha
  | int x =>
    cases b with
    | nan => exact absurd rfl hb
    | int y =>
      simp only [ParsedInt.above, ParsedInt.rank, ParsedInt.value] at h
      simp only [ParsedInt.ge, decide_eq_true_eq]
      omega
    | inf nb => cases nb <;> simp_all [ParsedInt.ge, ParsedInt.above, ParsedInt.rank]
  | inf na =>
    cases b with
    | nan => exact absurd rfl hb
    | int y => cases na <;> simp_all [ParsedInt.ge, ParsedInt.above, ParsedInt.rank]
    | inf nb =>
      cases na <;> cases nb <;>
        simp_all [ParsedInt.ge, ParsedInt.above, ParsedInt.rank, ParsedInt.value]

/-! ## The order of the leaderboard -/

/-- C3, the code at the failing input.  With the records `a: "abc"` and `b: "5"` the
handler answers the leaderboard `[{a, NaN}, {b, 5}]`, with `b`, the highest level, last:
the comparator `b.level - a.level` is NaN for the pair and the sort keeps the input order.
The first level is not greater than or equal to the second, and no arrangement of these two
entries is in descending order, since every comparison with NaN is false.  So the ordering
does not hold for every sequence of stored records. -/
theorem leaderboard_not_descending_with_nan :
    getLeaderboard (servingBackend mixedLevelRecords) = .ok [⟨"a", .nan⟩, ⟨"b", .int 5⟩] ∧
    computeLeaderboard mixedLevelRecords = [⟨"a", .nan⟩, ⟨"b", .int 5⟩] ∧
    compareByLevel ⟨"a", .nan⟩ ⟨"b", .int 5⟩ = .nan ∧
    ParsedInt.ge .nan (.int 5) = false ∧
    (∀ l : List Entry, l.Perm (computeLeaderboard mixedLevelRecords) →
      ¬ l.Pairwise (fun x y => x.level.ge y.level = true)) ∧
    ¬ ∀ (allNFTRecords : List RawRecord) (i j : Fin (computeLeaderboard allNFTRecords).length),
      i < j → ((computeLeaderboard allNFTRecords).get i).level.ge
        ((computeLeaderboard allNFTRecords).get j).level = true := by
  have hval : computeLeaderboard mixedLevelRecords = [⟨"a", .nan⟩, ⟨"b", .int 5⟩] := by decide
  refine ⟨by decide, hval, rfl, rfl, ?_, ?_⟩
  swap
  · intro hall
    have h := hall mixedLevelRecords ⟨0, by decide⟩ ⟨1, by decide⟩ (by decide)
    revert h
    decide
  rw [hval]
  intro l hl hp
  have hsym : Symmetric (fun x y : Entry => x.level.ge y.level = true ∨ y.level.ge x.level = true) :=
    fun _ _ h => h.symm
  have hp2 := (hp.imp (S := fun x y : Entry => x.level.ge y.level = true ∨ y.level.ge x.level = true)
    (fun h => Or.inl h)).forall hsym
  have ha : (⟨"a", .nan⟩ : Entry) ∈ l := hl.symm.subset (by simp)
  have hb : (⟨"b", .int 5⟩ : Entry) ∈ l := hl.symm.subset (by simp)
  have := hp2 ha hb (by decide)
  revert this
  decide

/-- When no entry of the leaderboard has level NaN, the leaderboard is in descending order
of level: for positions `i < j` the level at `i` is greater than or equal to the level at
`j`. -/
theorem leaderboard_descending_of_numeric (allNFTRecords : List RawRecord)
    (hnum : ∀ e ∈ computeLeaderboard allNFTRecords, e.level ≠ .nan)
    (i j : Nat) (hij : i < j) (hj : j < (computeLeaderboard allNFTRecords).length) :
    ((computeLeaderboard allNFTRecords).get ⟨i, hij.trans hj⟩).level.ge
      ((computeLeaderboard allNFTRecords).get ⟨j, hj⟩).level = true := by
  have hmem : ∀ a, a ∈ (objectEntries (allNFTRecords.foldl leaderboardStep [])).map
      (fun kv => (⟨kv.1, kv.2⟩ : Entry)) → a.level ≠ .nan := by
    intro a ha
    exact hnum a ((mem_arraySort compareByLevel _ a).2 ha)
  have hsorted : (computeLeaderboard allNFTRecords).Pairwise
      (fun a b => a.level.above b.level) := by
    unfold computeLeaderboard
    apply arraySort_pairwise_of_key compareByLevel (fun e => e.level)
    intro a ha b hb
    exact sortCompare_sub_le_iff a.level b.level (hmem a ha) (hmem b hb)
  have hrel := List.pairwise_iff_get.1 hsorted ⟨i, hij.trans hj⟩ ⟨j, hj⟩ hij
  exact ge_of_above _ _ (hnum _ (List.get_mem _ _ _)) (hnum _ (List.get_mem _ _ _)) hrel

/-! ## The latest record of a user -/

/-- The filter keeps exactly the records of the requested user. -/
theorem mem_userNFTRecords (fitbitid : String) (allNFTRecords : List RawRecord)
    (record : RawRecord) :
    record ∈ userNFTRecords fitbitid allNFTRecords ↔
      record ∈ allNFTRecords ∧ record.fitbitid = .str fitbitid := by
  simp [userNFTRecords, List.mem_filter]

/-- The chosen record exists as soon as one record matches, it is a record of the requested
user, and the answer is built from it. -/
theorem latestNFTRecord_of_match (fitbitid : String) (allNFTRecords : List RawRecord)
    (hmatch : ∃ r ∈ allNFTRecords, r.fitbitid = .str fitbitid) :
    ∃ latest rest, arraySort compareByDate (userNFTRecords fitbitid allNFTRecords)
        = latest :: rest ∧
      latest ∈ allNFTRecords ∧ latest.fitbitid = .str fitbitid ∧
      latestNFTRecord fitbitid allNFTRecords = some latest ∧
      latestFromRecords fitbitid allNFTRecords =
        .ok (.str fitbitid) (resolveField latest.dateofupdate) (resolveField latest.level) := by
  obtain ⟨r, hr, hrid⟩ := hmatch
  have hru : r ∈ userNFTRecords fitbitid allNFTRecords :=
    (mem_userNFTRecords fitbitid allNFTRecords r).2 ⟨hr, hrid⟩
  have hrs : r ∈ arraySort compareByDate (userNFTRecords fitbitid allNFTRecords) :=
    (mem_arraySort compareByDate _ r).2 hru
  cases hs : arraySort compareByDate (userNFTRecords fitbitid allNFTRecords) with
  | nil => rw [hs] at hrs; cases hrs
  | cons latest rest =>
    have hl : latest ∈ userNFTRecords fitbitid allNFTRecords :=
      (mem_arraySort compareByDate _ latest).1 (by rw [hs]; exact List.mem_cons_self _ _)
    have hl2 := (mem_userNFTRecords fitbitid allNFTRecords latest).1 hl
    have hlatest : latestNFTRecord fitbitid allNFTRecords = some latest := by
      simp [latestNFTRecord, hs]
    refine ⟨latest, rest, rfl, hl2.1, hl2.2, hlatest, ?_⟩
    have h1 : allNFTRecords.length ≠ 0 := by
      intro h0
      rw [List.length_eq_zero] at h0
      rw [h0] at hr
      cases hr
    have h2 : (userNFTRecords fitbitid allNFTRecords).length ≠ 0 := by
      intro h0
      rw [List.length_eq_zero] at h0
      rw [h0] at hru
      cases hru
    simp [latestFromRecords, h1, h2, hlatest, hl2.2]

/-- C4, the code at the failing input.  With the records `{u1, ts "abc"}` and
`{u1, ts "5"}` the handler answers from the `"abc"` record: `parseInt("abc")` is NaN, the
comparator returns NaN, the sort keeps the input order.  Read as an integer with parse
failures as `0`, its timestamp `0` is below the timestamp `5` of the other record of `u1`.
With the timestamps `9007199254740992` and `9007199254740993` the handler answers from the
first record as well: both strings parse to the same double.  So the chosen record is not,
for every input, one with the greatest timestamp. -/
theorem latest_not_greatest_with_nan :
    getLatestNft (some "u1") (servingBackend mixedDateRecords)
      = .ok (.str "u1") (.scalar (.str "abc")) (.scalar (.str "2")) ∧
    latestNFTRecord "u1" mixedDateRecords = some (plainRecord "u1" "abc" "2") ∧
    compareByDate (plainRecord "u1" "abc" "2") (plainRecord "u1" "5" "3") = .nan ∧
    plainRecord "u1" "5" "3" ∈ mixedDateRecords ∧
    (plainRecord "u1" "5" "3").fitbitid = .str "u1" ∧
    lenientDate (plainRecord "u1" "abc" "2") = 0 ∧
    lenientDate (plainRecord "u1" "5" "3") = 5 ∧
    getLatestNft (some "u1") (servingBackend closeDateRecords)
      = .ok (.str "u1") (.scalar (.str "9007199254740992")) (.scalar (.str "1")) ∧
    dateKey (plainRecord "u1" "9007199254740993" "2") = .int 9007199254740992 ∧
    lenientDate (plainRecord "u1" "9007199254740993" "2") = 9007199254740993 ∧
    ¬ ∀ (fitbitid : String) (allNFTRecords : List RawRecord),
      (∃ r ∈ allNFTRecords, r.fitbitid = .str fitbitid) →
      ∃ latest ∈ allNFTRecords, latest.fitbitid = .str fitbitid ∧
        latestNFTRecord fitbitid allNFTRecords = some latest ∧
        ∀ r ∈ allNFTRecords, r.fitbitid = .str fitbitid →
          lenientDate r ≤ lenientDate latest := by
  refine ⟨by decide, by decide, by decide, by decide, by decide, by decide, by decide,
    by decide, by decide, by decide, ?_⟩
  intro hall
  obtain ⟨latest, _, _, hlatest, hmax⟩ :=
    hall "u1" mixedDateRecords ⟨plainRecord "u1" "5" "3", by decide, by decide⟩
  have h1 : latestNFTRecord "u1" mixedDateRecords = some (plainRecord "u1" "abc" "2") := by
    decide
  rw [h1] at hlatest
  have h2 := hmax (plainRecord "u1" "5" "3") (by decide) (by decide)
  rw [← Option.some.inj hlatest] at h2
  revert h2
  decide

/-- An absent, `null` or otherwise falsy timestamp sorts as `0`. -/
theorem dateKey_of_falsy (record : RawRecord) (p : Prim)
    (hfield : record.dateofupdate = .scalar p) (h : p.truthy = false) :
    dateKey record = .int 0 := by
  have hu : Prim.truthy .undefined = false := rfl
  have h0 : parseInt "0" = .int 0 := by decide
  simp [dateKey, hfield, RawField.orElse, RawField.or, RawField.shareOpt, RawField.truthy,
    h, hu, RawField.toStr, Prim.toStr, h0]

/-- For a user with at least one record and whose records all have a timestamp that
`parseInt` reads as a Number other than NaN, the handler answers from a record of that user
whose parsed timestamp is greater than or equal to that of every record of the user. -/
theorem latest_greatest_of_numeric (fitbitid : String) (backend : Backend)
    (allNFTRecords : List RawRecord) (hid : fitbitid ≠ "")
    (hinit : backend.init = .ok ()) (hread : backend.readFromNodes = .ok (some allNFTRecords))
    (hmatch : ∃ r ∈ allNFTRecords, r.fitbitid = .str fitbitid)
    (hnum : ∀ r ∈ allNFTRecords, r.fitbitid = .str fitbitid → dateKey r ≠ .nan) :
    ∃ latest ∈ allNFTRecords, latest.fitbitid = .str fitbitid ∧
      getLatestNft (some fitbitid) backend =
        .ok (.str fitbitid) (resolveField latest.dateofupdate) (resolveField latest.level) ∧
      ∀ r ∈ allNFTRecords, r.fitbitid = .str fitbitid →
        (dateKey latest).ge (dateKey r) = true := by
  have hrun : getLatestNft (some fitbitid) backend = latestFromRecords fitbitid allNFTRecords := by
    simp [getLatestNft, hid, hinit, hread]
  obtain ⟨latest, rest, hs, hmem, hlid, hlatest, hresp⟩ :=
    latestNFTRecord_of_match fitbitid allNFTRecords hmatch
  refine ⟨latest, hmem, hlid, hrun.trans hresp, ?_⟩
  intro r hr hrid
  have hkey : ∀ a, a ∈ userNFTRecords fitbitid allNFTRecords → dateKey a ≠ .nan := by
    intro a ha
    have := (mem_userNFTRecords fitbitid allNFTRecords a).1 ha
    exact hnum a this.1 this.2
  have hsorted : (arraySort compareByDate (userNFTRecords fitbitid allNFTRecords)).Pairwise
      (fun a b => (dateKey a).above (dateKey b)) := by
    apply arraySort_pairwise_of_key compareByDate dateKey
    intro a ha b hb
    exact sortCompare_sub_le_iff (dateKey a) (dateKey b) (hkey a ha) (hkey b hb)
  rw [hs] at hsorted
  have hrs : r ∈ latest :: rest := by
    rw [← hs]
    exact (mem_arraySort compareByDate _ r).2
      ((mem_userNFTRecords fitbitid allNFTRecords r).2 ⟨hr, hrid⟩)
  have hle : (dateKey latest).above (dateKey r) := by
    rcases List.mem_cons.1 hrs with h | h
    · rw [h]
      exact (above_total _ _).elim id id
    · exact (List.pairwise_cons.1 hsorted).1 r h
  exact ge_of_above _ _ (hnum latest hmem hlid) (hnum r hr hrid) hle

/-- C5.  Once the storage client has returned the stored records, `/get-latest-nft` with a
non-empty `fitbitid` answers 404 exactly when no record has a `fitbitid` strictly equal to
the requested string; otherwise it answers 200 from a stored record of that user, with that
`fitbitid` in the response. -/
theorem getLatestNft_notFound_iff (fitbitid : String) (backend : Backend)
    (allNFTRecords : List RawRecord) (hid : fitbitid ≠ "")
    (hinit : backend.init = .ok ()) (hread : backend.readFromNodes = .ok (some allNFTRecords)) :
    ((getLatestNft (some fitbitid) backend).status = 404 ↔
      ∀ record ∈ allNFTRecords, record.fitbitid ≠ .str fitbitid) ∧
    ((∃ record ∈ allNFTRecords, record.fitbitid = .str fitbitid) →
      ∃ latest ∈ allNFTRecords, latest.fitbitid = .str fitbitid ∧
        getLatestNft (some fitbitid) backend =
          .ok (.str fitbitid) (resolveField latest.dateofupdate) (resolveField latest.level)) := by
  have hrun : getLatestNft (some fitbitid) backend = latestFromRecords fitbitid allNFTRecords := by
    simp [getLatestNft, hid, hinit, hread]
  rw [hrun]
  by_cases hmatch : ∃ r ∈ allNFTRecords, r.fitbitid = .str fitbitid
  · obtain ⟨latest, rest, _, hmem, hlid, _, hresp⟩ :=
      latestNFTRecord_of_match fitbitid allNFTRecords hmatch
    refine ⟨?_, fun _ => ⟨latest, hmem, hlid, hresp⟩⟩
    rw [hresp]
    constructor
    · intro h
      simp [LatestResponse.status] at h
    · intro h
      obtain ⟨r, hr, hrid⟩ := hmatch
      exact absurd hrid (h r hr)
  · refine ⟨?_, fun h => absurd h hmatch⟩
    have hnone : ∀ record ∈ allNFTRecords, record.fitbitid ≠ .str fitbitid := by
      intro record hrec heq
      exact hmatch ⟨record, hrec, heq⟩
    have hempty : userNFTRecords fitbitid allNFTRecords = [] := by
      apply List.eq_nil_iff_forall_not_mem.2
      intro a ha
      have := (mem_userNFTRecords fitbitid allNFTRecords a).1 ha
      exact hnone a this.1 this.2
    refine ⟨fun _ => hnone, fun _ => ?_⟩
    unfold latestFromRecords
    by_cases h0 : allNFTRecords.length = 0
    · simp [h0, LatestResponse.status]
    · simp [h0, hempty, LatestResponse.status]

/-- C5 at the example of the specification, with the storage client returning the three
records: `u1` has records and is answered from one of them, and `U1`, which differs from
`u1` in case only, is answered with 404. -/
theorem getLatestNft_notFound_iff_witness :
    (∃ latest ∈ specExampleRecords, latest.fitbitid = .str "u1" ∧
      getLatestNft (some "u1") (servingBackend specExampleRecords) =
        .ok (.str "u1") (resolveField latest.dateofupdate) (resolveField latest.level)) ∧
    (getLatestNft (some "U1") (servingBackend specExampleRecords)).status = 404 :=
  ⟨(getLatestNft_notFound_iff "u1" (servingBackend specExampleRecords) specExampleRecords
      (by decide) rfl rfl).2 ⟨plainRecord "u1" "100" "2", by decide, by decide⟩,
   (getLatestNft_notFound_iff "U1" (servingBackend specExampleRecords) specExampleRecords
      (by decide) rfl rfl).1.2 (by decide)⟩

/-! ## The fields of the response -/

/-- The falsy primitives are `undefined`, `null`, `false`, the Numbers `0` and NaN, and the
empty string. -/
theorem prim_falsy_iff (p : Prim) :
    p.truthy = false ↔
      p = .undefined ∨ p = .null ∨ p = .bool false ∨ p = .num "0" ∨ p = .num "NaN" ∨
        p = .str "" := by
  cases p <;> simp [Prim.truthy]
  tauto

/-- C6, counterexample.  A plain scalar that is the empty string is not returned unchanged
but replaced by `"Missing"`, and a container whose inner value is the empty string does not
yield its inner value but is returned whole; the handler answers so for a record of `u1`
with these two fields.  So neither the container rule nor the scalar rule holds for every
field value. -/
theorem resolveField_falsy_not_kept :
    resolveField (.scalar (.str "")) = .scalar (.str "Missing") ∧
    resolveField (.scalar (.str "")) ≠ .scalar (.str "") ∧
    resolveField (.share (.str "")) = .share (.str "") ∧
    resolveField (.share (.str "")) ≠ .scalar (.str "") ∧
    getLatestNft (some "u1") (servingBackend emptyFieldRecords)
      = .ok (.str "u1") (.scalar (.str "Missing")) (.share (.str "")) ∧
    (¬ ∀ inner : Prim, resolveField (.share inner) = .scalar inner) ∧
    ¬ ∀ p : Prim, p ≠ .undefined → p ≠ .null → resolveField (.scalar p) = .scalar p := by
  refine ⟨by decide, by decide, by decide, by decide, by decide, ?_, ?_⟩
  · intro hall
    have h := hall (.str "")
    revert h
    decide
  · intro hall
    have h := hall (.str "") (by decide) (by decide)
    revert h
    decide

/-- C6, amended.  For the `dateofupdate` and the `level` of the chosen record the response
holds: the inner value of a container when that value is truthy; the container itself when
its inner value is falsy; a plain scalar unchanged when it is truthy; the string
`"Missing"` when the field is absent, `null` or another falsy scalar. -/
theorem resolveField_precedence :
    (∀ inner : Prim, inner.truthy = true → resolveField (.share inner) = .scalar inner) ∧
    (∀ inner : Prim, inner.truthy = false → resolveField (.share inner) = .share inner) ∧
    (∀ p : Prim, p.truthy = true → resolveField (.scalar p) = .scalar p) ∧
    (∀ p : Prim, p.truthy = false → resolveField (.scalar p) = .scalar (.str "Missing")) ∧
    (∀ (fitbitid : String) (allNFTRecords : List RawRecord) (latest : RawRecord),
      latestNFTRecord fitbitid allNFTRecords = some latest →
      latestFromRecords fitbitid allNFTRecords =
        .ok latest.fitbitid (resolveField latest.dateofupdate) (resolveField latest.level)) := by
  refine ⟨?_, ?_, ?_, ?_, ?_⟩
  · intro inner h
    simp [resolveField, RawField.orElse, RawField.or, RawField.shareOpt, RawField.truthy, h]
  · intro inner h
    simp [resolveField, RawField.orElse, RawField.or, RawField.shareOpt, RawField.truthy, h]
  · intro p h
    have hu : Prim.truthy .undefined = false := rfl
    simp [resolveField, RawField.orElse, RawField.or, RawField.shareOpt, RawField.truthy, h, hu]
  · intro p h
    have hu : Prim.truthy .undefined = false := rfl
    simp [resolveField, RawField.orElse, RawField.or, RawField.shareOpt, RawField.truthy, h, hu]
  · intro fitbitid allNFTRecords latest hlatest
    have hmemS : latest ∈ arraySort compareByDate (userNFTRecords fitbitid allNFTRecords) := by
      unfold latestNFTRecord at hlatest
      exact List.mem_of_mem_head? hlatest
    have hmemU := (mem_arraySort compareByDate _ latest).1 hmemS
    have hmem := (mem_userNFTRecords fitbitid allNFTRecords latest).1 hmemU
    obtain ⟨latest2, _, _, _, _, hlatest2, hresp⟩ :=
      latestNFTRecord_of_match fitbitid allNFTRecords ⟨latest, hmem.1, hmem.2⟩
    rw [hlatest] at hlatest2
    cases hlatest2
    rw [hresp, hmem.2]

/-- C6, amended, at concrete fields: a container around `"7"`, a container around `""`, the
plain string `"7"`, the value `null`, and the record chosen for `u1` in the example of the
specification. -/
theorem resolveField_precedence_witness :
    resolveField (.share (.str "7")) = .scalar (.str "7") ∧
    resolveField (.share (.str "")) = .share (.str "") ∧
    resolveField (.scalar (.str "7")) = .scalar (.str "7") ∧
    resolveField (.scalar .null) = .scalar (.str "Missing") ∧
    latestFromRecords "u1" specExampleRecords =
      .ok (.str "u1") (resolveField (.scalar (.str "200"))) (resolveField (.scalar (.str "3"))) :=
  ⟨resolveField_precedence.1 (.str "7") (by decide),
   resolveField_precedence.2.1 (.str "") (by decide),
   resolveField_precedence.2.2.1 (.str "7") (by decide),
   resolveField_precedence.2.2.2.1 .null (by decide),
   resolveField_precedence.2.2.2.2 "u1" specExampleRecords (plainRecord "u1" "200" "3")
     (by decide)⟩

/-! ## The created ids -/

/-- Adding to a `Set` keeps the elements distinct. -/
theorem setAdd_nodup (elements : List String) (id : String) (h : elements.Nodup) :
    (setAdd elements id).Nodup := by
  unfold setAdd
  split
  · exact h
  · rename_i hnot
    exact List.nodup_append.2 ⟨h, List.nodup_singleton id, by
      intro a ha hb
      rw [List.mem_singleton] at hb
      exact hnot (hb ▸ ha)⟩

/-- After adding, the `Set` holds the old elements and the new one. -/
theorem mem_setAdd (elements : List String) (id x : String) :
    x ∈ setAdd elements id ↔ x ∈ elements ∨ x = id := by
  unfold setAdd
  split
  · rename_i hin
    constructor
    · exact Or.inl
    · rintro (h | h)
      · exact h
      · exact h ▸ hin
  · simp

/-- Filling a `Set` from an iterable keeps the elements distinct and adds exactly the
elements of the iterable. -/
theorem foldl_setAdd (iterable elements : List String) (h : elements.Nodup) :
    (iterable.foldl setAdd elements).Nodup ∧
    ∀ x, x ∈ iterable.foldl setAdd elements ↔ x ∈ elements ∨ x ∈ iterable := by
  induction iterable generalizing elements with
  | nil => simp [h]
  | cons id rest ih =>
    obtain ⟨hn, hm⟩ := ih (setAdd elements id) (setAdd_nodup elements id h)
    refine ⟨hn, fun x => ?_⟩
    rw [List.foldl_cons, hm x, mem_setAdd, List.mem_cons]
    tauto

/-- The ids that an acknowledgment contributes are those of its `result.data.created`. -/
theorem mem_createdOf (item : Ack) (id : String) :
    id ∈ createdOf item ↔
      ∃ result data ids, item.result = some result ∧ result.data = some data ∧
        data.created = some ids ∧ id ∈ ids := by
  obtain ⟨result⟩ := item
  cases result with
  | none => simp [createdOf]
  | some result =>
    obtain ⟨data⟩ := result
    cases data with
    | none => simp [createdOf]
    | some data =>
      obtain ⟨created⟩ := data
      cases created with
      | none => simp [createdOf]
      | some ids => simp [createdOf]

/-- An acknowledgment that contributes no id does not change `newIds`. -/
theorem newIds_skip (before after : List Ack) (item : Ack) (h : createdOf item = []) :
    newIds (before ++ item :: after) = newIds (before ++ after) := by
  simp [newIds, List.flatMap_append, List.flatMap_cons, h]

/-- What the handler answers once the body is valid and encoded and the three calls on the
storage client have resolved. -/
theorem addNftData_ok (body : AddBody) (backend : Backend) (record : WireRecord)
    (dataWritten : List Ack) (decryptedCollectionData : List RawRecord)
    (hf : body.fitbitid.truthy = true) (hd : body.dateofupdate.truthy = true)
    (hl : body.level.truthy = true) (he : encode body = .ok record)
    (hinit : backend.init = .ok ()) (hwrite : backend.writeToNodes [record] = .ok dataWritten)
    (hread : backend.readFromNodes = .ok (some decryptedCollectionData)) :
    addNftData body backend =
      (.ok (newIds dataWritten) (decryptedCollectionData.take 1),
        [.init, .writeToNodes [record], .readFromNodes]) := by
  simp [addNftData, hf, hd, hl, he, hinit, hwrite, hread]

/-- A 200 answer of the handler carries `newIds` of what the write of the encoded record
resolved to. -/
theorem addNftData_ok_inv (body : AddBody) (backend : Backend) (ids : List String)
    (allData : List RawRecord) (h : (addNftData body backend).1 = .ok ids allData) :
    ∃ record dataWritten, encode body = .ok record ∧
      backend.writeToNodes [record] = .ok dataWritten ∧ ids = newIds dataWritten := by
  by_cases hv : (!body.fitbitid.truthy || !body.dateofupdate.truthy || !body.level.truthy) = true
  · simp [addNftData, hv] at h
  · cases he : encode body with
    | error message => simp [addNftData, hv, he] at h
    | ok record =>
      cases hi : backend.init with
      | error message => simp [addNftData, hv, he, hi] at h
      | ok u =>
        cases hw : backend.writeToNodes [record] with
        | error message => simp [addNftData, hv, he, hi, hw] at h
        | ok dataWritten =>
          cases hr : backend.readFromNodes with
          | error message => simp [addNftData, hv, he, hi, hw, hr] at h
          | ok read =>
            cases read with
            | none => simp [addNftData, hv, he, hi, hw, hr] at h
            | some decryptedCollectionData =>
              simp [addNftData, hv, he, hi, hw, hr] at h
              exact ⟨record, dataWritten, rfl, hw, h.1.symm⟩

/-- C8.  Whatever acknowledgments the write of the encoded record resolves to, complete or
not, the handler raises nothing on them: once the read has resolved too it answers 200, and
its `createdRecordIds` is `newIds` of these acknowledgments.  That array has no repeated
id; an id is in it exactly when it occurs in the `result.data.created` list of some
acknowledgment; an acknowledgment without `result`, without `data` or without `created`
contributes nothing; and every 200 answer carries `newIds` of what the write of the
encoded record resolved to. -/
theorem newIds_union :
    (∀ (body : AddBody) (backend : Backend) (record : WireRecord) (dataWritten : List Ack)
        (decryptedCollectionData : List RawRecord),
      body.fitbitid.truthy = true → body.dateofupdate.truthy = true →
      body.level.truthy = true → encode body = .ok record → backend.init = .ok () →
      backend.writeToNodes [record] = .ok dataWritten →
      backend.readFromNodes = .ok (some decryptedCollectionData) →
      (addNftData body backend).1 =
        .ok (newIds dataWritten) (decryptedCollectionData.take 1)) ∧
    (∀ dataWritten : List Ack,
      (newIds dataWritten).Nodup ∧
      ∀ id, id ∈ newIds dataWritten ↔
        ∃ item ∈ dataWritten, ∃ result data ids, item.result = some result ∧
          result.data = some data ∧ data.created = some ids ∧ id ∈ ids) ∧
    (∀ before after : List Ack,
      newIds (before ++ ⟨none⟩ :: after) = newIds (before ++ after) ∧
      newIds (before ++ ⟨some ⟨none⟩⟩ :: after) = newIds (before ++ after) ∧
      newIds (before ++ ⟨some ⟨some ⟨none⟩⟩⟩ :: after) = newIds (before ++ after)) ∧
    (∀ (body : AddBody) (backend : Backend) (ids : List String) (allData : List RawRecord),
      (addNftData body backend).1 = .ok ids allData →
      ∃ record dataWritten, encode body = .ok record ∧
        backend.writeToNodes [record] = .ok dataWritten ∧ ids = newIds dataWritten) := by
  refine ⟨?_, ?_, ?_, addNftData_ok_inv⟩
  · intro body backend record dataWritten decryptedCollectionData hf hd hl he hinit hwrite hread
    rw [addNftData_ok body backend record dataWritten decryptedCollectionData hf hd hl he
      hinit hwrite hread]
  · intro dataWritten
    obtain ⟨hn, hm⟩ := foldl_setAdd (dataWritten.flatMap createdOf) [] List.nodup_nil
    refine ⟨hn, fun id => ?_⟩
    unfold newIds spreadNewSet
    rw [hm id]
    simp only [List.not_mem_nil, false_or, List.mem_flatMap]
    constructor
    · rintro ⟨item, hitem, hid⟩
      exact ⟨item, hitem, (mem_createdOf item id).1 hid⟩
    · rintro ⟨item, hitem, hid⟩
      exact ⟨item, hitem, (mem_createdOf item id).2 hid⟩
  · intro before after
    exact ⟨newIds_skip before after _ rfl, newIds_skip before after _ rfl,
      newIds_skip before after _ rfl⟩

/-- C8 at a write acknowledged by five nodes, three of them without `result`, `data` or
`created`: the handler answers 200 and the ids of the two complete acknowledgments are
listed once each, in order of first occurrence. -/
theorem newIds_union_witness :
    (addNftData plainBody partialAckBackend).1
      = .ok ["id-1", "id-2", "id-3"] [plainRecord "u1" "200" "3"] ∧
    ∃ record dataWritten, encode plainBody = .ok record ∧
      partialAckBackend.writeToNodes [record] = .ok dataWritten ∧
      ["id-1", "id-2", "id-3"] = newIds dataWritten :=
  ⟨newIds_union.1 plainBody partialAckBackend ⟨.prim (.str "u1"), ⟨"200"⟩, ⟨"3"⟩⟩
      partialAcks [plainRecord "u1" "200" "3"] (by decide) (by decide) (by decide) rfl rfl
      rfl rfl,
   newIds_union.2.2.2 plainBody partialAckBackend ["id-1", "id-2", "id-3"]
     [plainRecord "u1" "200" "3"] (by decide)⟩

/-! ## Validation and encoding of a write request -/

/-- The falsy JSON values are `undefined` (an absent field), `null`, `false`, the Numbers
`0` and NaN, and the empty string. -/
theorem jsval_falsy_iff (v : JSVal) :
    v.truthy = false ↔
      v = .prim .undefined ∨ v = .prim .null ∨ v = .prim (.bool false) ∨
        v = .prim (.num "0") ∨ v = .prim (.num "NaN") ∨ v = .prim (.str "") := by
  cases v with
  | prim p => simpa [JSVal.truthy] using prim_falsy_iff p
  | obj props => simp [JSVal.truthy]
  | arr items => simp [JSVal.truthy]

/-- The call `toString()` returns on every truthy primitive. -/
theorem callToString_prim (name : String) (p : Prim) (h : p.truthy = true) :
    JSVal.callToString name (.prim p) = .ok p.toStr := by
  cases p <;> simp_all [JSVal.callToString, Prim.truthy]

/-- The validation of line 47 fails exactly when one of the three fields is falsy. -/
theorem validation_fails_iff (body : AddBody) :
    (!body.fitbitid.truthy || !body.dateofupdate.truthy || !body.level.truthy) = true ↔
      (body.fitbitid.truthy = false ∨ body.dateofupdate.truthy = false ∨
        body.level.truthy = false) := by
  cases body.fitbitid.truthy <;> cases body.dateofupdate.truthy <;>
    cases body.level.truthy <;> simp

/-- After a successful validation and encoding the handler calls `init`, and when `init`
resolves it calls `writeToNodes` with the one encoded record. -/
theorem addNftData_calls (body : AddBody) (backend : Backend) (record : WireRecord)
    (hf : body.fitbitid.truthy = true) (hd : body.dateofupdate.truthy = true)
    (hl : body.level.truthy = true) (he : encode body = .ok record) :
    ∃ rest, (addNftData body backend).2 = .init :: rest ∧
      (backend.init = .ok () → ∃ rest2, rest = .writeToNodes [record] :: rest2) := by
  cases hi : backend.init with
  | error message =>
    exact ⟨[], by simp [addNftData, hf, hd, hl, he, hi], fun h => by cases h⟩
  | ok u =>
    cases hw : backend.writeToNodes [record] with
    | error message =>
      exact ⟨[.writeToNodes [record]], by simp [addNftData, hf, hd, hl, he, hi, hw],
        fun _ => ⟨[], rfl⟩⟩
    | ok dataWritten =>
      cases hr : backend.readFromNodes with
      | error message =>
        exact ⟨[.writeToNodes [record], .readFromNodes],
          by simp [addNftData, hf, hd, hl, he, hi, hw, hr], fun _ => ⟨[.readFromNodes], rfl⟩⟩
      | ok read =>
        cases read with
        | none =>
          exact ⟨[.writeToNodes [record], .readFromNodes],
            by simp [addNftData, hf, hd, hl, he, hi, hw, hr], fun _ => ⟨[.readFromNodes], rfl⟩⟩
        | some decryptedCollectionData =>
          exact ⟨[.writeToNodes [record], .readFromNodes],
            by simp [addNftData, hf, hd, hl, he, hi, hw, hr], fun _ => ⟨[.readFromNodes], rfl⟩⟩

/-- C10, counterexample.  In the body `{fitbitid: "a", dateofupdate: {"toString": 1},
level: "1"}` the three fields are truthy, yet the handler does not write: the call
`dateofupdate.toString()` throws a `TypeError`, which the handler catches and answers with
status 500, before any call on the storage client.  So three truthy fields do not always
lead to a write. -/
theorem addNftData_truthy_without_write :
    shadowedToStringBody.fitbitid.truthy = true ∧
    shadowedToStringBody.dateofupdate.truthy = true ∧
    shadowedToStringBody.level.truthy = true ∧
    encode shadowedToStringBody = .error "dateofupdate.toString is not a function" ∧
    (addNftData shadowedToStringBody (servingBackend [])).1
      = .serverError "dateofupdate.toString is not a function" ∧
    (addNftData shadowedToStringBody (servingBackend [])).1.status = 500 ∧
    (addNftData shadowedToStringBody (servingBackend [])).2 = [] ∧
    ¬ ∀ (body : AddBody) (backend : Backend),
      body.fitbitid.truthy = true → body.dateofupdate.truthy = true →
      body.level.truthy = true → backend.init = .ok () →
      ∃ record rest, (addNftData body backend).2 = .init :: .writeToNodes [record] :: rest := by
  refine ⟨by decide, by decide, by decide, rfl, rfl, rfl, rfl, ?_⟩
  intro hall
  obtain ⟨record, rest, h⟩ := hall shadowedToStringBody (servingBackend [])
    (by decide) (by decide) (by decide) rfl
  have h0 : (addNftData shadowedToStringBody (servingBackend [])).2 = [] := rfl
  rw [h0] at h
  cases h

/-- C10, amended.  The handler answers 400 exactly when one of `fitbitid`, `dateofupdate`,
`level` is falsy, and then it has made no call on the storage client.  When the three are
truthy and the two calls `dateofupdate.toString()` and `level.toString()` return, which
they do on every string, Number and boolean, the handler encodes the record with these two
strings, calls `init`, and when `init` resolves calls `writeToNodes` with that record. -/
theorem addNftData_validation (body : AddBody) (backend : Backend) :
    ((addNftData body backend).1.status = 400 ↔
      (body.fitbitid.truthy = false ∨ body.dateofupdate.truthy = false ∨
        body.level.truthy = false)) ∧
    ((addNftData body backend).1.status = 400 → (addNftData body backend).2 = []) ∧
    (∀ dateofupdate level : String,
      body.fitbitid.truthy = true → body.dateofupdate.truthy = true →
      body.level.truthy = true →
      JSVal.callToString "dateofupdate" body.dateofupdate = .ok dateofupdate →
      JSVal.callToString "level" body.level = .ok level →
      encode body = .ok ⟨body.fitbitid, ⟨dateofupdate⟩, ⟨level⟩⟩ ∧
      ∃ rest, (addNftData body backend).2 = .init :: rest ∧
        (backend.init = .ok () →
          ∃ rest2, rest = .writeToNodes [⟨body.fitbitid, ⟨dateofupdate⟩, ⟨level⟩⟩] :: rest2)) ∧
    (∀ (name : String) (p : Prim), p.truthy = true →
      JSVal.callToString name (.prim p) = .ok p.toStr) := by
  have hstatus : (addNftData body backend).1.status = 400 ↔
      (!body.fitbitid.truthy || !body.dateofupdate.truthy || !body.level.truthy) = true := by
    by_cases hv : (!body.fitbitid.truthy || !body.dateofupdate.truthy || !body.level.truthy) = true
    · simp [addNftData, hv, AddResponse.status]
    · simp only [hv, iff_false]
      cases he : encode body with
      | error message => simp [addNftData, hv, he, AddResponse.status]
      | ok record =>
        cases hi : backend.init with
        | error message => simp [addNftData, hv, he, hi, AddResponse.status]
        | ok u =>
          cases hw : backend.writeToNodes [record] with
          | error message => simp [addNftData, hv, he, hi, hw, AddResponse.status]
          | ok dataWritten =>
            cases hr : backend.readFromNodes with
            | error message => simp [addNftData, hv, he, hi, hw, hr, AddResponse.status]
            | ok read =>
              cases read with
              | none => simp [addNftData, hv, he, hi, hw, hr, AddResponse.status]
              | some decryptedCollectionData =>
                simp [addNftData, hv, he, hi, hw, hr, AddResponse.status]
  refine ⟨hstatus.trans (validation_fails_iff body), ?_, ?_, callToString_prim⟩
  · intro h
    have hv := hstatus.1 h
    simp [addNftData, hv]
  · intro dateofupdate level hf hd hl hds hls
    have he : encode body = .ok ⟨body.fitbitid, ⟨dateofupdate⟩, ⟨level⟩⟩ := by
      simp [encode, hds, hls]
    exact ⟨he, addNftData_calls body backend _ hf hd hl he⟩

/-- C10, amended, at a body of three non-empty strings and at a body without `level`. -/
theorem addNftData_validation_witness :
    ((addNftData ⟨.prim (.str "a"), .prim (.str "1"), .prim .undefined⟩
        (servingBackend [])).1.status = 400 ↔
      ((JSVal.prim (.str "a")).truthy = false ∨ (JSVal.prim (.str "1")).truthy = false ∨
        (JSVal.prim .undefined).truthy = false)) ∧
    (encode plainBody = .ok ⟨plainBody.fitbitid, ⟨"200"⟩, ⟨"3"⟩⟩ ∧
      ∃ rest, (addNftData plainBody (servingBackend [])).2 = .init :: rest ∧
        ((servingBackend []).init = .ok () →
          ∃ rest2, rest = .writeToNodes [⟨plainBody.fitbitid, ⟨"200"⟩, ⟨"3"⟩⟩] :: rest2)) :=
  ⟨(addNftData_validation _ (servingBackend [])).1,
   (addNftData_validation plainBody (servingBackend [])).2.2.1 "200" "3"
     (by decide) (by decide) (by decide) rfl rfl⟩

/-! ## Writing a record and reading it back -/

/-- Sorting one element returns it. -/
theorem arraySort_singleton {α : Type} (comparefn : α → α → ParsedInt) (x : α) :
    arraySort comparefn [x] = [x] := rfl

/-- A non-empty string that is read back, plain or in a container, resolves to itself. -/
theorem resolveField_of_stored (f : RawField) (s : String) (hs : s ≠ "")
    (h : f = .scalar (.str s) ∨ f = .share (.str s)) :
    resolveField f = .scalar (.str s) := by
  rcases h with h | h <;>
    simp [h, resolveField, RawField.orElse, RawField.or, RawField.shareOpt, RawField.truthy,
      Prim.truthy, hs]

/-- C9.  A record of three non-empty strings passes the validation of `/add-nft-data`, is
encoded with its `fitbitid` unchanged and its `dateofupdate` and `level` under `$allot`,
and that record is what is written.  When the storage client reads it back, each allotted
field as the plain string or as a `$share` container around it, `/get-latest-nft` answers
with the three strings of the original record. -/
theorem encode_resolve_roundtrip (userId timestamp level : String)
    (hu : userId ≠ "") (ht : timestamp ≠ "") (hl : level ≠ "") :
    ∃ w : WireRecord,
      encode ⟨.prim (.str userId), .prim (.str timestamp), .prim (.str level)⟩ = .ok w ∧
      w.fitbitid = .prim (.str userId) ∧ w.dateofupdate.allot = timestamp ∧
      w.level.allot = level ∧
      (∀ backend : Backend, backend.init = .ok () →
        ∃ rest, (addNftData ⟨.prim (.str userId), .prim (.str timestamp), .prim (.str level)⟩
          backend).2 = .init :: .writeToNodes [w] :: rest) ∧
      ∀ dateAsShare levelAsShare : Bool,
        ∃ record : RawRecord, readBack dateAsShare levelAsShare w = some record ∧
          getLatestNft (some userId) (servingBackend [record]) =
            .ok (.str userId) (.scalar (.str timestamp)) (.scalar (.str level)) := by
  have he : encode ⟨.prim (.str userId), .prim (.str timestamp), .prim (.str level)⟩
      = .ok ⟨.prim (.str userId), ⟨timestamp⟩, ⟨level⟩⟩ := by
    simp [encode, JSVal.callToString, Prim.toStr]
  refine ⟨⟨.prim (.str userId), ⟨timestamp⟩, ⟨level⟩⟩, he, rfl, rfl, rfl, ?_, ?_⟩
  · intro backend hinit
    obtain ⟨rest, hcalls, hwrite⟩ := addNftData_calls
      ⟨.prim (.str userId), .prim (.str timestamp), .prim (.str level)⟩ backend _
      (by simp [JSVal.truthy, Prim.truthy, hu]) (by simp [JSVal.truthy, Prim.truthy, ht])
      (by simp [JSVal.truthy, Prim.truthy, hl]) he
    obtain ⟨rest2, hrest⟩ := hwrite hinit
    exact ⟨rest2, by rw [hcalls, hrest]⟩
  · intro dateAsShare levelAsShare
    refine ⟨_, rfl, ?_⟩
    have hrun : ∀ record : RawRecord, getLatestNft (some userId) (servingBackend [record])
        = latestFromRecords userId [record] := by
      intro record
      simp [getLatestNft, servingBackend, hu]
    rw [hrun]
    obtain ⟨latest, rest, hs, _, _, _, hresp⟩ :=
      latestNFTRecord_of_match userId
        [(⟨.str userId,
          if dateAsShare then .share (.str timestamp) else .scalar (.str timestamp),
          if levelAsShare then .share (.str level) else .scalar (.str level)⟩ : RawRecord)]
        ⟨_, List.mem_singleton.2 rfl, rfl⟩
    have hu1 : userNFTRecords userId
        [(⟨.str userId,
          if dateAsShare then .share (.str timestamp) else .scalar (.str timestamp),
          if levelAsShare then .share (.str level) else .scalar (.str level)⟩ : RawRecord)]
        = [⟨.str userId,
          if dateAsShare then .share (.str timestamp) else .scalar (.str timestamp),
          if levelAsShare then .share (.str level) else .scalar (.str level)⟩] := by
      simp [userNFTRecords]
    rw [hu1, arraySort_singleton] at hs
    have hl1 : latest = ⟨.str userId,
          if dateAsShare then .share (.str timestamp) else .scalar (.str timestamp),
          if levelAsShare then .share (.str level) else .scalar (.str level)⟩ := by
      simp only [List.cons.injEq] at hs
      exact hs.1.symm
    rw [hresp, hl1]
    have hd := resolveField_of_stored
      (if dateAsShare then .share (.str timestamp) else .scalar (.str timestamp)) timestamp ht
      (by cases dateAsShare <;> simp)
    have hlv := resolveField_of_stored
      (if levelAsShare then .share (.str level) else .scalar (.str level)) level hl
      (by cases levelAsShare <;> simp)
    simp only [hd, hlv]

/-- C9 at the record `u1`, `200`, `3`. -/
theorem encode_resolve_roundtrip_witness :
    "u1" ≠ "" ∧ "200" ≠ "" ∧ "3" ≠ "" ∧
    ∃ w : WireRecord,
      encode ⟨.prim (.str "u1"), .prim (.str "200"), .prim (.str "3")⟩ = .ok w ∧
      w.fitbitid = .prim (.str "u1") ∧ w.dateofupdate.allot = "200" ∧
      w.level.allot = "3" ∧
      (∀ backend : Backend, backend.init = .ok () →
        ∃ rest, (addNftData ⟨.prim (.str "u1"), .prim (.str "200"), .prim (.str "3")⟩
          backend).2 = .init :: .writeToNodes [w] :: rest) ∧
      ∀ dateAsShare levelAsShare : Bool,
        ∃ record : RawRecord, readBack dateAsShare levelAsShare w = some record ∧
          getLatestNft (some "u1") (servingBackend [record]) =
            .ok (.str "u1") (.scalar (.str "200")) (.scalar (.str "3")) :=
  ⟨by decide, by decide, by decide,
    encode_resolve_roundtrip "u1" "200" "3" (by decide) (by decide) (by decide)⟩

/-! ## The map built by the leaderboard -/

/-- Reading the first pair or the rest. -/
theorem lookup_cons_eq (k a : String) (w : ParsedInt) (rest : PropMap) :
    List.lookup k ((a, w) :: rest) = if k = a then some w else List.lookup k rest := by
  by_cases h : k = a
  · simp [List.lookup, h]
  · have hb : (k == a) = false := by simpa using h
    simp [List.lookup, h, hb]

/-- Reading after `put`. -/
theorem lookup_put (m : PropMap) (k k2 : String) (v : ParsedInt) :
    (PropMap.put m k v).lookup k2 = if k2 = k then some v else m.lookup k2 := by
  induction m with
  | nil =>
    by_cases h : k2 = k <;> simp [PropMap.put, lookup_cons_eq, h]
  | cons kv rest ih =>
    obtain ⟨a, w⟩ := kv
    by_cases ha : a = k
    · by_cases h : k2 = k <;> simp [PropMap.put, lookup_cons_eq, ha, h]
    · by_cases h2 : k2 = a
      · simp [PropMap.put, lookup_cons_eq, ha, h2]
      · simp [PropMap.put, lookup_cons_eq, ha, h2, ih]

/-- The keys after `put`. -/
theorem keys_put (m : PropMap) (k : String) (v : ParsedInt) :
    (PropMap.put m k v).map Prod.fst =
      if k ∈ m.map Prod.fst then m.map Prod.fst else m.map Prod.fst ++ [k] := by
  induction m with
  | nil => simp [PropMap.put]
  | cons kv rest ih =>
    obtain ⟨a, w⟩ := kv
    by_cases ha : a = k
    · simp [PropMap.put, ha]
    · have hne : ¬ k = a := fun h => ha h.symm
      by_cases hin : k ∈ rest.map Prod.fst
      · simp only [PropMap.put, ha, if_false, List.map_cons, ih, hin, if_true, List.mem_cons,
          or_true]
      · simp only [PropMap.put, ha, if_false, List.map_cons, ih, hin, List.mem_cons, hne,
          or_self, List.cons_append]

/-- The keys stay distinct under `put`. -/
theorem nodup_keys_put (m : PropMap) (k : String) (v : ParsedInt)
    (h : (m.map Prod.fst).Nodup) : ((PropMap.put m k v).map Prod.fst).Nodup := by
  rw [keys_put]
  split
  · exact h
  · rename_i hnot
    exact List.nodup_append.2 ⟨h, List.nodup_singleton k, by
      intro a ha hb
      rw [List.mem_singleton] at hb
      exact hnot (hb ▸ ha)⟩

/-- With distinct keys, a pair is in the map exactly when the key reads as its value. -/
theorem mem_iff_lookup (m : PropMap) (h : (m.map Prod.fst).Nodup) (k : String)
    (v : ParsedInt) : (k, v) ∈ m ↔ m.lookup k = some v := by
  induction m with
  | nil => simp
  | cons kv rest ih =>
    obtain ⟨a, w⟩ := kv
    rw [List.map_cons, List.nodup_cons] at h
    by_cases hk : k = a
    · subst hk
      have hnot : ∀ x, (k, x) ∉ rest := fun x hx => h.1 (List.mem_map.2 ⟨(k, x), hx, rfl⟩)
      simp [lookup_cons_eq, hnot, eq_comm]
    · simp [lookup_cons_eq, hk, ih h.2]

/-- The key `__proto__` is a member of `Object.prototype`. -/
theorem proto_mem_objectPrototypeKeys : "__proto__" ∈ objectPrototypeKeys := by decide

/-- A record leaves the properties of the other keys alone. -/
theorem lookup_step_other (m : PropMap) (record : RawRecord) (k : String)
    (h : keyOf record ≠ k) : (leaderboardStep m record).lookup k = m.lookup k := by
  unfold leaderboardStep
  simp only
  split
  · unfold PropMap.set
    split
    · rfl
    · rw [lookup_put]
      simp [Ne.symm h]
  · rfl

/-- A record whose key is not inherited updates the own property of its key. -/
theorem lookup_step_same (m : PropMap) (record : RawRecord)
    (hk : keyOf record ∉ objectPrototypeKeys) :
    (leaderboardStep m record).lookup (keyOf record) =
      updateLevel (m.lookup (keyOf record)) (levelOf record) := by
  have hproto : keyOf record ≠ "__proto__" := fun h => hk (h ▸ proto_mem_objectPrototypeKeys)
  cases hl : m.lookup (keyOf record) with
  | none =>
    have hget : m.get (keyOf record) = .absent := by
      unfold PropMap.get
      simp [hl, hk]
    simp [leaderboardStep, hget, Slot.truthy, PropMap.set, hproto, lookup_put, updateLevel]
  | some cur =>
    have hget : m.get (keyOf record) = .own cur := by
      unfold PropMap.get
      simp [hl]
    by_cases hc : (!cur.truthy || (levelOf record).gt cur) = true
    · simp [leaderboardStep, hget, Slot.truthy, ParsedInt.gtSlot, PropMap.set, hproto,
        lookup_put, updateLevel, hc]
    · simp [leaderboardStep, hget, Slot.truthy, ParsedInt.gtSlot, updateLevel, hc, hl]

/-- A record whose key is inherited and not yet an own property changes nothing. -/
theorem step_inherited (m : PropMap) (record : RawRecord)
    (hk : keyOf record ∈ objectPrototypeKeys) (hm : m.lookup (keyOf record) = none) :
    leaderboardStep m record = m := by
  have hget : m.get (keyOf record) = .inherited := by
    unfold PropMap.get
    simp [hm, hk]
  simp [leaderboardStep, hget, Slot.truthy, ParsedInt.gtSlot]

/-- The keys of the map stay distinct. -/
theorem nodup_keys_step (m : PropMap) (record : RawRecord) (h : (m.map Prod.fst).Nodup) :
    ((leaderboardStep m record).map Prod.fst).Nodup := by
  unfold leaderboardStep
  simp only
  split
  · unfold PropMap.set
    split
    · exact h
    · exact nodup_keys_put m _ _ h
  · exact h

/-- The keys of the map stay distinct along the whole input. -/
theorem nodup_keys_foldl (allNFTRecords : List RawRecord) (m : PropMap)
    (h : (m.map Prod.fst).Nodup) :
    ((allNFTRecords.foldl leaderboardStep m).map Prod.fst).Nodup := by
  induction allNFTRecords generalizing m with
  | nil => exact h
  | cons record rest ih => exact ih _ (nodup_keys_step m record h)

/-- The own property of a key that is not inherited is the fold of `updateLevel` over the
levels of the records of that key. -/
theorem lookup_foldl (k : String) (hk : k ∉ objectPrototypeKeys)
    (allNFTRecords : List RawRecord) (m : PropMap) :
    (allNFTRecords.foldl leaderboardStep m).lookup k =
      (levelsOf k allNFTRecords).foldl updateLevel (m.lookup k) := by
  induction allNFTRecords generalizing m with
  | nil => rfl
  | cons record rest ih =>
    rw [List.foldl_cons, ih]
    by_cases h : keyOf record = k
    · have hk2 : keyOf record ∉ objectPrototypeKeys := h ▸ hk
      have := lookup_step_same m record hk2
      rw [h] at this
      simp [levelsOf, List.filter_cons, h, this]
    · simp [levelsOf, List.filter_cons, h, lookup_step_other m record k h]

/-- An inherited key never becomes an own property. -/
theorem lookup_foldl_inherited (k : String) (hk : k ∈ objectPrototypeKeys)
    (allNFTRecords : List RawRecord) (m : PropMap) (hm : m.lookup k = none) :
    (allNFTRecords.foldl leaderboardStep m).lookup k = none := by
  induction allNFTRecords generalizing m with
  | nil => exact hm
  | cons record rest ih =>
    rw [List.foldl_cons]
    apply ih
    by_cases h : keyOf record = k
    · rw [step_inherited m record (h ▸ hk) (h ▸ hm)]
      exact hm
    · rw [lookup_step_other m record k h]
      exact hm

/-- The function `Object.entries` lists the own properties, each once. -/
theorem objectEntries_perm (m : PropMap) : (objectEntries m).Perm m := by
  unfold objectEntries
  exact (List.Perm.append_right _ (List.perm_insertionSort _ _)).trans
    (List.filter_append_perm _ m)

/-- The leaderboard before and after the sort has the properties of the map as entries. -/
theorem computeLeaderboard_perm (allNFTRecords : List RawRecord) :
    (computeLeaderboard allNFTRecords).Perm
      ((allNFTRecords.foldl leaderboardStep []).map (fun kv => (⟨kv.1, kv.2⟩ : Entry))) := by
  unfold computeLeaderboard
  exact (arraySort_perm compareByLevel _).trans ((objectEntries_perm _).map _)

/-- An entry is on the leaderboard exactly when its key is an own property of the map with
its level. -/
theorem mem_computeLeaderboard (allNFTRecords : List RawRecord) (e : Entry) :
    e ∈ computeLeaderboard allNFTRecords ↔
      (allNFTRecords.foldl leaderboardStep []).lookup e.fitbitid = some e.level := by
  rw [(computeLeaderboard_perm allNFTRecords).mem_iff,
    ← mem_iff_lookup _ (nodup_keys_foldl allNFTRecords [] List.nodup_nil)]
  constructor
  · intro h
    obtain ⟨kv, hkv, heq⟩ := List.mem_map.1 h
    rw [← heq]
    exact hkv
  · intro h
    exact List.mem_map.2 ⟨(e.fitbitid, e.level), h, rfl⟩

/-- No two entries of the leaderboard have the same `fitbitid`. -/
theorem computeLeaderboard_nodup (allNFTRecords : List RawRecord) :
    ((computeLeaderboard allNFTRecords).map Entry.fitbitid).Nodup := by
  have hp := (computeLeaderboard_perm allNFTRecords).map Entry.fitbitid
  rw [hp.nodup_iff, List.map_map]
  exact nodup_keys_foldl allNFTRecords [] List.nodup_nil

/-! ## The levels of the leaderboard -/

/-- The update never removes a property. -/
theorem foldl_updateLevel_isSome (levels : List ParsedInt) (cur : ParsedInt) :
    ∃ v, levels.foldl updateLevel (some cur) = some v := by
  induction levels generalizing cur with
  | nil => exact ⟨cur, rfl⟩
  | cons level rest ih =>
    rw [List.foldl_cons]
    unfold updateLevel
    simp only
    split
    · exact ih level
    · exact ih cur

/-- Levels that are all NaN keep a NaN property at NaN. -/
theorem foldl_updateLevel_nan (levels : List ParsedInt) (h : ∀ l ∈ levels, l = .nan) :
    levels.foldl updateLevel (some .nan) = some .nan := by
  induction levels with
  | nil => rfl
  | cons level rest ih =>
    have hl : level = .nan := h level (List.mem_cons_self _ _)
    rw [List.foldl_cons, hl]
    exact ih (fun l hl2 => h l (List.mem_cons_of_mem _ hl2))

/-- Non-negative integer levels leave the greatest of them in the property. -/
theorem foldl_updateLevel_nonneg (levels : List ParsedInt) (c : Int) (hc : 0 ≤ c)
    (h : ∀ l ∈ levels, ∃ i : Int, l = .int i ∧ 0 ≤ i) :
    ∃ M : Int, levels.foldl updateLevel (some (.int c)) = some (.int M) ∧
      (M = c ∨ .int M ∈ levels) ∧ c ≤ M ∧ ∀ i : Int, .int i ∈ levels → i ≤ M := by
  induction levels generalizing c with
  | nil => exact ⟨c, rfl, Or.inl rfl, le_refl c, fun i hi => by cases hi⟩
  | cons level rest ih =>
    obtain ⟨i, hi, hi0⟩ := h level (List.mem_cons_self _ _)
    have hrest : ∀ l ∈ rest, ∃ i : Int, l = .int i ∧ 0 ≤ i :=
      fun l hl => h l (List.mem_cons_of_mem _ hl)
    rw [List.foldl_cons, hi]
    by_cases hcond : (!(ParsedInt.int c).truthy || (ParsedInt.int i).gt (.int c)) = true
    · have hstep : updateLevel (some (.int c)) (.int i) = some (.int i) := by
        simp [updateLevel, hcond]
      have hci : c ≤ i := by
        simp only [ParsedInt.truthy, ParsedInt.gt, Bool.or_eq_true, Bool.not_eq_true',
          Bool.not_eq_false', beq_iff_eq, decide_eq_true_eq] at hcond
        rcases hcond with h0 | hlt
        · omega
        · omega
      obtain ⟨M, hM, hmem, hle, hall⟩ := ih i hi0 hrest
      rw [hstep]
      refine ⟨M, hM, Or.inr ?_, le_trans hci hle, ?_⟩
      · rcases hmem with h1 | h1
        · rw [h1]
          exact List.mem_cons_self _ _
        · exact List.mem_cons_of_mem _ h1
      · intro j hj
        rcases List.mem_cons.1 hj with h1 | h1
        · cases h1
          exact hle
        · exact hall j h1
    · have hstep : updateLevel (some (.int c)) (.int i) = some (.int c) := by
        simp [updateLevel, hcond]
      have hic : i ≤ c := by
        simp only [ParsedInt.truthy, ParsedInt.gt, Bool.or_eq_true, Bool.not_eq_true',
          Bool.not_eq_false', beq_iff_eq, decide_eq_true_eq, not_or, not_lt] at hcond
        exact hcond.2
      obtain ⟨M, hM, hmem, hle, hall⟩ := ih c hc hrest
      rw [hstep]
      refine ⟨M, hM, ?_, hle, ?_⟩
      · rcases hmem with h1 | h1
        · exact Or.inl h1
        · exact Or.inr (List.mem_cons_of_mem _ h1)
      · intro j hj
        rcases List.mem_cons.1 hj with h1 | h1
        · cases h1
          exact le_trans hic hle
        · exact hall j h1

/-- The levels of a key are the levels of its records. -/
theorem mem_levelsOf (key : String) (allNFTRecords : List RawRecord) (level : ParsedInt) :
    level ∈ levelsOf key allNFTRecords ↔
      ∃ r ∈ allNFTRecords, keyOf r = key ∧ levelOf r = level := by
  simp [levelsOf, List.mem_map, List.mem_filter, and_assoc]

/-- The users of the leaderboard are the property keys of the records, without the members
of `Object.prototype`. -/
theorem computeLeaderboard_ids (allNFTRecords : List RawRecord) (key : String) :
    key ∈ (computeLeaderboard allNFTRecords).map Entry.fitbitid ↔
      key ∉ objectPrototypeKeys ∧ ∃ r ∈ allNFTRecords, keyOf r = key := by
  constructor
  · intro h
    obtain ⟨e, he, hkey⟩ := List.mem_map.1 h
    have hl := (mem_computeLeaderboard allNFTRecords e).1 he
    rw [hkey] at hl
    by_cases hk : key ∈ objectPrototypeKeys
    · rw [lookup_foldl_inherited key hk allNFTRecords [] rfl] at hl
      cases hl
    · refine ⟨hk, ?_⟩
      rw [lookup_foldl key hk] at hl
      cases hlv : levelsOf key allNFTRecords with
      | nil =>
        rw [hlv] at hl
        cases hl
      | cons level rest =>
        have hmem : level ∈ levelsOf key allNFTRecords := by
          rw [hlv]
          exact List.mem_cons_self _ _
        obtain ⟨r, hr, hrk, _⟩ := (mem_levelsOf key allNFTRecords level).1 hmem
        exact ⟨r, hr, hrk⟩
  · rintro ⟨hk, r, hr, hrk⟩
    have hmem : levelOf r ∈ levelsOf key allNFTRecords :=
      (mem_levelsOf key allNFTRecords (levelOf r)).2 ⟨r, hr, hrk, rfl⟩
    cases hlv : levelsOf key allNFTRecords with
    | nil =>
      rw [hlv] at hmem
      cases hmem
    | cons level rest =>
      obtain ⟨v, hv⟩ := foldl_updateLevel_isSome rest level
      have hl : (allNFTRecords.foldl leaderboardStep []).lookup key = some v := by
        rw [lookup_foldl key hk, hlv]
        exact hv
      exact List.mem_map.2 ⟨⟨key, v⟩, (mem_computeLeaderboard allNFTRecords ⟨key, v⟩).2 hl, rfl⟩

/-- The property holds its first level or one of the later levels. -/
theorem foldl_updateLevel_mem (levels : List ParsedInt) (c v : ParsedInt)
    (h : levels.foldl updateLevel (some c) = some v) : v = c ∨ v ∈ levels := by
  induction levels generalizing c with
  | nil =>
    left
    exact (Option.some.inj h).symm
  | cons level rest ih =>
    rw [List.foldl_cons] at h
    unfold updateLevel at h
    simp only at h
    split at h
    · rcases ih level h with h1 | h1
      · right
        rw [h1]
        exact List.mem_cons_self _ _
      · right
        exact List.mem_cons_of_mem _ h1
    · rcases ih c h with h1 | h1
      · left
        exact h1
      · right
        exact List.mem_cons_of_mem _ h1

/-- The level of an entry is the parsed level of one of the records of that user; so when
every stored level parses to an integer no entry has level NaN. -/
theorem computeLeaderboard_level_mem (allNFTRecords : List RawRecord) (e : Entry)
    (he : e ∈ computeLeaderboard allNFTRecords) :
    ∃ r ∈ allNFTRecords, keyOf r = e.fitbitid ∧ levelOf r = e.level := by
  have hl := (mem_computeLeaderboard allNFTRecords e).1 he
  by_cases hk : e.fitbitid ∈ objectPrototypeKeys
  · rw [lookup_foldl_inherited e.fitbitid hk allNFTRecords [] rfl] at hl
    cases hl
  · rw [lookup_foldl e.fitbitid hk] at hl
    cases hlv : levelsOf e.fitbitid allNFTRecords with
    | nil =>
      rw [hlv] at hl
      cases hl
    | cons level rest =>
      rw [hlv, List.foldl_cons] at hl
      have hstart : updateLevel (List.lookup e.fitbitid ([] : PropMap)) level = some level := rfl
      rw [hstart] at hl
      have hmem : e.level ∈ levelsOf e.fitbitid allNFTRecords := by
        rw [hlv]
        rcases foldl_updateLevel_mem rest level e.level hl with h1 | h1
        · rw [h1]
          exact List.mem_cons_self _ _
        · exact List.mem_cons_of_mem _ h1
      exact (mem_levelsOf e.fitbitid allNFTRecords e.level).1 hmem

/-- For non-negative integer levels the leaderboard holds the maximum: a user whose key is
not inherited and whose records all have a level that parses to a non-negative integer is
listed with the greatest of these levels. -/
theorem leaderboard_max_of_nonneg (allNFTRecords : List RawRecord) (key : String)
    (hk : key ∉ objectPrototypeKeys) (hex : ∃ r ∈ allNFTRecords, keyOf r = key)
    (hnn : ∀ r ∈ allNFTRecords, keyOf r = key → ∃ i : Int, levelOf r = .int i ∧ 0 ≤ i) :
    ∃ M : Int, (⟨key, .int M⟩ : Entry) ∈ computeLeaderboard allNFTRecords ∧
      (∃ r ∈ allNFTRecords, keyOf r = key ∧ levelOf r = .int M) ∧
      ∀ r ∈ allNFTRecords, keyOf r = key → ∀ i : Int, levelOf r = .int i → i ≤ M := by
  obtain ⟨r0, hr0, hr0k⟩ := hex
  have hlevels : ∀ l ∈ levelsOf key allNFTRecords, ∃ i : Int, l = .int i ∧ 0 ≤ i := by
    intro l hl
    obtain ⟨r, hr, hrk, hrl⟩ := (mem_levelsOf key allNFTRecords l).1 hl
    rw [← hrl]
    exact hnn r hr hrk
  have hmem0 : levelOf r0 ∈ levelsOf key allNFTRecords :=
    (mem_levelsOf key allNFTRecords _).2 ⟨r0, hr0, hr0k, rfl⟩
  cases hlv : levelsOf key allNFTRecords with
  | nil =>
    rw [hlv] at hmem0
    cases hmem0
  | cons level rest =>
    rw [hlv] at hlevels
    obtain ⟨c, hc, hc0⟩ := hlevels level (List.mem_cons_self _ _)
    obtain ⟨M, hM, hmem, hle, hall⟩ := foldl_updateLevel_nonneg rest c hc0
      (fun l hl => hlevels l (List.mem_cons_of_mem _ hl))
    have hlookup : (allNFTRecords.foldl leaderboardStep []).lookup key = some (.int M) := by
      rw [lookup_foldl key hk, hlv, List.foldl_cons]
      have : updateLevel (List.lookup key ([] : PropMap)) level = some (.int c) := by
        rw [hc]
        rfl
      rw [this]
      exact hM
    have hMin : ParsedInt.int M ∈ levelsOf key allNFTRecords := by
      rw [hlv]
      rcases hmem with h1 | h1
      · rw [h1, ← hc]
        exact List.mem_cons_self _ _
      · exact List.mem_cons_of_mem _ h1
    refine ⟨M, (mem_computeLeaderboard allNFTRecords ⟨key, .int M⟩).2 hlookup, ?_, ?_⟩
    · obtain ⟨r, hr, hrk, hrl⟩ := (mem_levelsOf key allNFTRecords _).1 hMin
      exact ⟨r, hr, hrk, hrl⟩
    · intro r hr hrk i hri
      have hin : ParsedInt.int i ∈ levelsOf key allNFTRecords :=
        (mem_levelsOf key allNFTRecords _).2 ⟨r, hr, hrk, hri⟩
      rw [hlv] at hin
      rcases List.mem_cons.1 hin with h1 | h1
      · rw [hc] at h1
        cases h1
        exact hle
      · exact hall i h1

/-- C1, the code at the failing input.  For one user with the levels `"0"` and then `"-5"`
the parsed levels are `0` and `-5`, whose maximum is `0`, and the leaderboard lists the
user with level `-5`: the test `!leaderboardMap[fitbitid]` of line 194 takes the stored
`0` for a missing property. -/
theorem leaderboard_zero_then_negative :
    levelsOf "a" zeroThenNegativeRecords = [.int 0, .int (-5)] ∧
    computeLeaderboard zeroThenNegativeRecords = [⟨"a", .int (-5)⟩] ∧
    getLeaderboard (servingBackend zeroThenNegativeRecords) = .ok [⟨"a", .int (-5)⟩] := by
  decide

/-- C2, the code at the failing input.  One stored record with the `fitbitid`
`"constructor"` gives an empty leaderboard: `leaderboardMap["constructor"]` reads the
inherited function `Object`, which is truthy and compares as NaN, so the property is never
created. -/
theorem leaderboard_drops_inherited_key :
    keyOf (plainRecord "constructor" "1" "3") = "constructor" ∧
    computeLeaderboard inheritedKeyRecords = [] ∧
    getLeaderboard (servingBackend inheritedKeyRecords) = .ok [] := by
  decide

/-- C7, counterexample.  The level `"abc"` parses to NaN, not to `0`: a user whose only
record has that level is listed with level NaN, and there is no entry with level `0`.  So
a user whose levels are all non-numeric strings is not always listed with level `0`. -/
theorem leaderboard_non_numeric_level_is_nan :
    levelOf (plainRecord "a" "1" "abc") = .nan ∧
    computeLeaderboard nonNumericLevelRecords = [⟨"a", .nan⟩] ∧
    (⟨"a", .int 0⟩ : Entry) ∉ computeLeaderboard nonNumericLevelRecords ∧
    getLeaderboard (servingBackend nonNumericLevelRecords) = .ok [⟨"a", .nan⟩] ∧
    ¬ ∀ (allNFTRecords : List RawRecord) (key : String),
      (∃ r ∈ allNFTRecords, keyOf r = key) →
      (∀ r ∈ allNFTRecords, keyOf r = key → ∃ s : String,
        r.level = .scalar (.str s) ∧ parseInt s = .nan) →
      (⟨key, .int 0⟩ : Entry) ∈ computeLeaderboard allNFTRecords := by
  refine ⟨by decide, by decide, by decide, by decide, ?_⟩
  intro hall
  have h := hall nonNumericLevelRecords "a" ⟨plainRecord "a" "1" "abc", by decide, by decide⟩
    (by
      intro r hr _
      have hr2 : r = plainRecord "a" "1" "abc" := by
        simpa [nonNumericLevelRecords] using hr
      exact ⟨"abc", by rw [hr2]; rfl, by decide⟩)
  revert h
  decide

/-- In a list without repeated `fitbitid`, the entries of one `fitbitid` are that entry. -/
theorem filter_fitbitid_eq (l : List Entry) (hnd : (l.map Entry.fitbitid).Nodup) (e : Entry)
    (he : e ∈ l) : l.filter (fun x => decide (x.fitbitid = e.fitbitid)) = [e] := by
  induction l with
  | nil => cases he
  | cons x xs ih =>
    rw [List.map_cons, List.nodup_cons] at hnd
    rcases List.mem_cons.1 he with h | h
    · subst h
      have hnone : xs.filter (fun x => decide (x.fitbitid = e.fitbitid)) = [] := by
        apply List.filter_eq_nil_iff.2
        intro y hy hyk
        exact hnd.1 (List.mem_map.2 ⟨y, hy, by simpa using hyk⟩)
      simp [List.filter_cons, hnone]
    · have hne : x.fitbitid ≠ e.fitbitid := by
        intro heq
        exact hnd.1 (List.mem_map.2 ⟨e, h, heq.symm⟩)
      simp [List.filter_cons, hne, ih hnd.2 h]

/-- C7, amended.  A level that is a truthy scalar, so every non-empty string, is parsed by
`parseInt` as it stands, and `"abc"` parses to NaN; only an absent, `null` or otherwise
falsy level is replaced by `"0"` and reads as `0`.  The handler raises nothing on such a
level: once the records are read it answers 200, and a user whose key is not a member of
`Object.prototype` and whose records all have a level that is a non-empty string parsing to
NaN is listed exactly once, with level NaN. -/
theorem leaderboard_nan_level :
    parseInt "abc" = .nan ∧
    (∀ (record : RawRecord) (p : Prim), record.level = .scalar p → p.truthy = true →
      levelOf record = parseInt p.toStr) ∧
    (∀ (record : RawRecord) (p : Prim), record.level = .scalar p → p.truthy = false →
      levelOf record = .int 0) ∧
    (∀ (backend : Backend) (allNFTRecords : List RawRecord) (key : String),
      backend.init = .ok () → backend.readFromNodes = .ok (some allNFTRecords) →
      key ∉ objectPrototypeKeys →
      (∃ r ∈ allNFTRecords, keyOf r = key) →
      (∀ r ∈ allNFTRecords, keyOf r = key →
        ∃ s : String, r.level = .scalar (.str s) ∧ s ≠ "" ∧ parseInt s = .nan) →
      ∃ leaderboard : List Entry, getLeaderboard backend = .ok leaderboard ∧
        leaderboard.filter (fun e => decide (e.fitbitid = key)) = [⟨key, .nan⟩]) := by
  have htruthy : ∀ (record : RawRecord) (p : Prim), record.level = .scalar p →
      p.truthy = true → levelOf record = parseInt p.toStr := by
    intro record p hlevel hp
    have hu : Prim.truthy .undefined = false := rfl
    simp [levelOf, hlevel, RawField.orElse, RawField.or, RawField.shareOpt, RawField.truthy,
      hp, hu, RawField.toStr]
  have hparse : ∀ (record : RawRecord) (s : String), record.level = .scalar (.str s) →
      s ≠ "" → levelOf record = parseInt s := by
    intro record s hlevel hs
    exact htruthy record (.str s) hlevel (by simp [Prim.truthy, hs])
  refine ⟨by decide, htruthy, ?_, ?_⟩
  · intro record p hlevel hp
    have hu : Prim.truthy .undefined = false := rfl
    have h0 : parseInt "0" = .int 0 := by decide
    simp [levelOf, hlevel, RawField.orElse, RawField.or, RawField.shareOpt, RawField.truthy,
      hp, hu, RawField.toStr, Prim.toStr, h0]
  · intro backend allNFTRecords key hinit hread hk hex hnan
    obtain ⟨r0, hr0, hr0k⟩ := hex
    have hlen : allNFTRecords.length ≠ 0 := by
      intro h0
      rw [List.length_eq_zero] at h0
      rw [h0] at hr0
      cases hr0
    have hrun : getLeaderboard backend = .ok (computeLeaderboard allNFTRecords) := by
      simp [getLeaderboard, hinit, hread, leaderboardFromRecords, hlen]
    have hlevels : ∀ l ∈ levelsOf key allNFTRecords, l = .nan := by
      intro l hl
      obtain ⟨r, hr, hrk, hrl⟩ := (mem_levelsOf key allNFTRecords l).1 hl
      obtain ⟨s, hs, hne, hsnan⟩ := hnan r hr hrk
      rw [← hrl, hparse r s hs hne]
      exact hsnan
    have hmem0 : levelOf r0 ∈ levelsOf key allNFTRecords :=
      (mem_levelsOf key allNFTRecords _).2 ⟨r0, hr0, hr0k, rfl⟩
    have hlookup : (allNFTRecords.foldl leaderboardStep []).lookup key = some .nan := by
      rw [lookup_foldl key hk]
      cases hlv : levelsOf key allNFTRecords with
      | nil =>
        rw [hlv] at hmem0
        cases hmem0
      | cons level rest =>
        rw [hlv] at hlevels
        rw [List.foldl_cons, hlevels level (List.mem_cons_self _ _)]
        exact foldl_updateLevel_nan rest (fun l hl => hlevels l (List.mem_cons_of_mem _ hl))
    have hin : (⟨key, .nan⟩ : Entry) ∈ computeLeaderboard allNFTRecords :=
      (mem_computeLeaderboard allNFTRecords ⟨key, .nan⟩).2 hlookup
    exact ⟨computeLeaderboard allNFTRecords, hrun,
      filter_fitbitid_eq _ (computeLeaderboard_nodup allNFTRecords) ⟨key, .nan⟩ hin⟩

/-- C7, amended, at the user `a` of the records `a: "abc"`, `b: "5"`, at the record
`a: "abc"` and at a record without `level`. -/
theorem leaderboard_nan_level_witness :
    levelOf (plainRecord "a" "1" "abc") = parseInt "abc" ∧
    levelOf ⟨.str "a", .scalar (.str "1"), .scalar .undefined⟩ = .int 0 ∧
    ∃ leaderboard : List Entry,
      getLeaderboard (servingBackend mixedLevelRecords) = .ok leaderboard ∧
      leaderboard.filter (fun e => decide (e.fitbitid = "a")) = [⟨"a", .nan⟩] :=
  ⟨leaderboard_nan_level.2.1 (plainRecord "a" "1" "abc") (.str "abc") rfl (by decide),
   leaderboard_nan_level.2.2.1 ⟨.str "a", .scalar (.str "1"), .scalar .undefined⟩ .undefined
     rfl rfl,
   leaderboard_nan_level.2.2.2 (servingBackend mixedLevelRecords) mixedLevelRecords "a"
     rfl rfl (by decide) ⟨plainRecord "a" "1" "abc", by decide, by decide⟩
     (by
       intro r hr hk
       have hr2 : r = plainRecord "a" "1" "abc" ∨ r = plainRecord "b" "2" "5" := by
         simpa [mixedLevelRecords] using hr
       rcases hr2 with h | h
       · exact ⟨"abc", by rw [h]; rfl, by decide, by decide⟩
       · rw [h] at hk
         exact absurd hk (by decide))⟩

end Nillion
